import Mathlib

/-!
Verification development for the plugeth-bor state-manager subsystem
(`core/state/plugin_hooks.go`): the StateDB journal/snapshot machinery,
the MVCC read path, the storage-deletion engine and the commit pipeline.

Go machine values are embedded as follows: 256-bit hashes and 20-byte
addresses become `Nat` (only equality and a handful of distinguished
constants matter to the verified properties; Keccak hashing of an address
is modelled as the identity injection), `big.Int` balances become `Int`,
byte strings become `List Nat`, Go `error` values become an explicit
`Err` inductive, nil-able results become `Option`, and panics become
`Option`/`Except` failures.  Go maps touched by the verified code are
embedded either as update functions (`Addr → Option _`) or as association
lists when iteration order is relevant.  External collaborators (trie,
snapshot tree, iterators, stack trie) are oracle parameters, per the
spec's interface boundaries.
-/

/-- 256-bit hash values (`common.Hash`). The zero hash is `0`. -/
abbrev Hash := Nat

/-- Account addresses (`common.Address`). -/
abbrev Addr := Nat

/-- The sentinel `types.EmptyRootHash` (keccak of empty RLP), distinct from the zero hash. -/
def EmptyRootHash : Hash := 1

/-- The sentinel `types.EmptyCodeHash` (keccak of empty byte string). -/
def EmptyCodeHash : Hash := 2

/-- Go `error` values.  `fmtErrorf ctx e` stands for
`fmt.Errorf(ctx + ": %v/%w", e)`, i.e. an error whose message embeds an
earlier error. -/
inductive Err where
  | msg (s : String)
  | fmtErrorf (ctx : String) (inner : Err)
deriving DecidableEq, Repr

/-- `types.StateAccount`: the canonical account record. -/
structure StateAccount where
  nonce : Nat
  balance : Int
  root : Hash
  codeHash : Hash
deriving DecidableEq, Repr

namespace NewModel

/-!
## `New` and the degraded fallback snapshot (claim C9)

`pluginSnapshot` (plugin_hooks.go:20-38) and the PluGeth section of
`New` (plugin_hooks.go:276-317).
-/

/-- `pluginSnapshot`: the degraded fallback snapshot installed by `New`
when no real snapshot is available. -/
structure pluginSnapshot where
  root : Hash
deriving DecidableEq, Repr

/-- `(*pluginSnapshot).Root` returns the stored construction root. -/
def pluginSnapshot.Root (s : pluginSnapshot) : Hash := s.root

/-- `(*pluginSnapshot).Account` always fails with "not implemented". -/
def pluginSnapshot.Account (_ : pluginSnapshot) (_ : Hash) :
    Except Err (Option StateAccount) := .error (.msg "not implemented")

/-- `(*pluginSnapshot).AccountRLP` always fails with "not implemented". -/
def pluginSnapshot.AccountRLP (_ : pluginSnapshot) (_ : Hash) :
    Except Err (List Nat) := .error (.msg "not implemented")

/-- `(*pluginSnapshot).Storage` always fails with "not implemented". -/
def pluginSnapshot.Storage (_ : pluginSnapshot) (_ _ : Hash) :
    Except Err (List Nat) := .error (.msg "not implemented")

/-- A real snapshot obtained from the snapshot tree is opaque here; the
manager's snapshot handle is either such a tree snapshot or the fallback. -/
inductive SnapHandle where
  | tree (t : Nat)
  | fallback (ps : pluginSnapshot)
deriving DecidableEq, Repr

/-- The slice of the freshly constructed `StateDB` that claim C9 is about. -/
structure NewResult where
  originalRoot : Hash
  /-- the nil-able `snap` field of the manager -/
  snap : Option SnapHandle
deriving DecidableEq, Repr

/-- `if sdb.snaps != nil { sdb.snap = sdb.snaps.Snapshot(root) }`: the
snapshot resolved from the (nil-able) tree, nil when the tree is absent
or has no snapshot for `root`. -/
def resolvedSnap (snaps : Option (Hash → Option Nat)) (root : Hash) : Option SnapHandle :=
  match snaps with
  | none => none
  | some tree => (tree root).map .tree

/-- The PluGeth section of `New`: `if sdb.snap == nil { sdb.snap =
&pluginSnapshot{root} }`. -/
def withFallback (root : Hash) : Option SnapHandle → Option SnapHandle
  | none => some (.fallback ⟨root⟩)
  | some s => some s

/-- `New(root, db, snaps)` (plugin_hooks.go:276-317).
`openTrie` is the `db.OpenTrie` oracle; `snaps` is the (nil-able)
snapshot tree, itself an oracle mapping a root to the (nil-able)
snapshot `snaps.Snapshot(root)`. -/
def New (openTrie : Hash → Except Err Unit) (snaps : Option (Hash → Option Nat))
    (root : Hash) : Except Err NewResult :=
  match openTrie root with
  | .error e => .error e
  | .ok _ => .ok { originalRoot := root, snap := withFallback root (resolvedSnap snaps root) }

end NewModel

/-- C9: after `New(root, db, snaps)` succeeds, the manager's snapshot
handle is never nil; when no snapshot tree is configured or the tree has
no snapshot for `root`, the handle is the fallback `pluginSnapshot`,
whose `Root()` is the construction root and whose `Account`, `AccountRLP`
and `Storage` methods always return a non-nil error. -/
theorem c9_new_snapshot_never_nil
    (openTrie : Hash → Except Err Unit) (snaps : Option (Hash → Option Nat))
    (root : Hash) (sdb : NewModel.NewResult)
    (hok : NewModel.New openTrie snaps root = .ok sdb) :
    sdb.snap.isSome = true ∧
    ((snaps = none ∨ ∃ tree, snaps = some tree ∧ tree root = none) →
      sdb.snap = some (.fallback ⟨root⟩) ∧
      (NewModel.pluginSnapshot.mk root).Root = root ∧
      (∀ h, ∃ e, (NewModel.pluginSnapshot.mk root).Account h = .error e) ∧
      (∀ h, ∃ e, (NewModel.pluginSnapshot.mk root).AccountRLP h = .error e) ∧
      (∀ h h', ∃ e, (NewModel.pluginSnapshot.mk root).Storage h h' = .error e)) := by
  unfold NewModel.New at hok
  cases hot : openTrie root with
  | error e => rw [hot] at hok; exact absurd hok (by simp)
  | ok _ =>
    rw [hot] at hok
    simp only [Except.ok.injEq] at hok
    subst hok
    constructor
    · cases h : NewModel.resolvedSnap snaps root with
      | none => simp [NewModel.withFallback, h]
      | some s => simp [NewModel.withFallback, h]
    · rintro (hnone | ⟨tree, htree, hmiss⟩)
      · subst hnone
        refine ⟨?_, rfl, fun h => ⟨_, rfl⟩, fun h => ⟨_, rfl⟩, fun h h' => ⟨_, rfl⟩⟩
        simp [NewModel.resolvedSnap, NewModel.withFallback]
      · subst htree
        refine ⟨?_, rfl, fun h => ⟨_, rfl⟩, fun h => ⟨_, rfl⟩, fun h h' => ⟨_, rfl⟩⟩
        simp [NewModel.resolvedSnap, NewModel.withFallback, hmiss]

/-- Witness for C9 at a concrete input: a trivial trie oracle, no snapshot
tree, root 7. -/
theorem c9_new_snapshot_never_nil_witness :
    ∃ sdb, NewModel.New (fun _ => .ok ()) none 7 = .ok sdb ∧ sdb.snap.isSome = true :=
  ⟨_, rfl, (c9_new_snapshot_never_nil (fun _ => .ok ()) none 7 _ rfl).1⟩

/-- `storageDeleteLimit` (plugin_hooks.go:164-168): the highest permissible
memory allocation employed for contract storage deletion, 512 MiB. -/
def storageDeleteLimit : Nat := 512 * 1024 * 1024

namespace DelModel

/-!
## The storage-deletion engine (claims C4, C5)

`fastDeleteStorage` (plugin_hooks.go:1549-1594), `slowDeleteStorage`
(plugin_hooks.go:1599-1631) and `deleteStorage` (plugin_hooks.go:1639-1674).
The snapshot storage iterator, the trie node iterator and the stack trie
are external collaborators; they are embedded as oracle environments
listing the elements an iteration would yield together with the error
results of each collaborator call.
-/

/-- One element yielded by the snapshot storage iterator in the fast path:
the slot hash `iter.Hash()`, the raw slot bytes `iter.Slot()`, the
`iter.Error()` observed right after reading the slot, the total length of
node paths flushed by the stack-trie writer callback during the
corresponding `stack.Update` (each flushed path adds `len(path)` to
`size`), and the error result of `stack.Update`. -/
structure FastItem where
  hash : Hash
  slot : List Nat
  slotErr : Option Err
  nodeSize : Nat
  updErr : Option Err

/-- The oracle environment of one `fastDeleteStorage` run. `preErr` is the
error of the PluGeth-injected `s.snap.Account(addrHash)` pre-check,
`iterErr` the error of `s.snaps.StorageIterator`, `finalErr` the
`iter.Error()` observed after the loop, and `stackHash` the root the stack
trie computes from the sequence of updated (slot hash, slot) pairs. -/
structure FastIterEnv where
  preErr : Option Err
  iterErr : Option Err
  items : List FastItem
  finalErr : Option Err
  stackHash : List (Hash × List Nat) → Hash

/-- The `(bool, common.StorageSize, map[common.Hash][]byte, error)`
portion of the deletion helpers' results (the trie-node deletion-marker
set is pure pass-through for the verified properties and is not tracked). -/
structure DelResult where
  aborted : Bool
  size : Nat
  slots : Option (List (Hash × List Nat))
  err : Option Err
deriving Repr

/-- The iteration loop of `fastDeleteStorage`: at each loop entry the
budget check `size > storageDeleteLimit` aborts; otherwise the slot is
read (checking `iter.Error()`), `size` grows by `common.HashLength +
len(slot)`, the slot is recorded, and `stack.Update` runs (flushing
writer nodes that add their path lengths to `size`).  After the loop the
final `iter.Error()` is checked and the recomputed stack-trie root is
compared against the expected prior root. -/
def fastDeleteLoop (root : Hash) (stackH : List (Hash × List Nat) → Hash)
    (finalErr : Option Err) :
    Nat → List (Hash × List Nat) → List FastItem → DelResult
  | size, slots, [] =>
    match finalErr with
    | some e => ⟨false, 0, none, some e⟩
    | none =>
      if stackH slots = root then ⟨false, size, some slots, none⟩
      else ⟨false, 0, none, some (.msg "snapshot is not matched")⟩
  | size, slots, it :: rest =>
    if storageDeleteLimit < size then ⟨true, size, none, none⟩
    else
      match it.slotErr with
      | some e => ⟨false, 0, none, some e⟩
      | none =>
        match it.updErr with
        | some e => ⟨false, 0, none, some e⟩
        | none =>
          fastDeleteLoop root stackH finalErr
            (size + (32 + it.slot.length) + it.nodeSize)
            (slots ++ [(it.hash, it.slot)]) rest

/-- `fastDeleteStorage` (plugin_hooks.go:1549-1594). -/
def fastDeleteStorage (root : Hash) (env : FastIterEnv) : DelResult :=
  match env.preErr with
  | some e => ⟨false, 0, none, some e⟩
  | none =>
    match env.iterErr with
    | some e => ⟨false, 0, none, some e⟩
    | none => fastDeleteLoop root env.stackHash env.finalErr 0 [] env.items

/-- One element yielded by the trie node iterator in the slow path: either
a leaf carrying `(it.LeafKey(), it.LeafBlob())`, or an internal node
carrying its path length and its hash (an empty hash means an embedded
node that is skipped). -/
inductive SlowItem where
  | leaf (key : Hash) (blob : List Nat)
  | internal (pathLen : Nat) (hash : Hash)

/-- The oracle environment of one `slowDeleteStorage` run. -/
structure SlowIterEnv where
  openErr : Option Err
  nodeIterErr : Option Err
  items : List SlowItem
  finalErr : Option Err

/-- The iteration loop of `slowDeleteStorage`: budget check at loop
entry; leaves add `common.HashLength + len(blob)` and are collected;
internal nodes with a non-empty hash add `len(path)` as deletion
markers. -/
def slowDeleteLoop (finalErr : Option Err) :
    Nat → List (Hash × List Nat) → List SlowItem → DelResult
  | size, slots, [] =>
    match finalErr with
    | some e => ⟨false, 0, none, some e⟩
    | none => ⟨false, size, some slots, none⟩
  | size, slots, it :: rest =>
    if storageDeleteLimit < size then ⟨true, size, none, none⟩
    else
      match it with
      | .leaf key blob =>
        slowDeleteLoop finalErr (size + (32 + blob.length)) (slots ++ [(key, blob)]) rest
      | .internal pathLen h =>
        if h = 0 then slowDeleteLoop finalErr size slots rest
        else slowDeleteLoop finalErr (size + pathLen) slots rest

/-- `slowDeleteStorage` (plugin_hooks.go:1599-1631). -/
def slowDeleteStorage (env : SlowIterEnv) : DelResult :=
  match env.openErr with
  | some e => ⟨false, 0, none, some (.fmtErrorf "failed to open storage trie" e)⟩
  | none =>
    match env.nodeIterErr with
    | some e => ⟨false, 0, none, some (.fmtErrorf "failed to open storage iterator" e)⟩
    | none => slowDeleteLoop env.finalErr 0 [] env.items

/-- The size contribution of one fast-path iteration element. -/
def fastItemSize (it : FastItem) : Nat := (32 + it.slot.length) + it.nodeSize

/-- Accumulated fast-path size over the first `i` iteration elements. -/
def fastPrefixSize (items : List FastItem) (i : Nat) : Nat :=
  ((items.take i).map fastItemSize).sum

/-- The size contribution of one slow-path iteration element. -/
def slowItemSize : SlowItem → Nat
  | .leaf _ blob => 32 + blob.length
  | .internal pathLen h => if h = 0 then 0 else pathLen

/-- Accumulated slow-path size over the first `i` iteration elements. -/
def slowPrefixSize (items : List SlowItem) (i : Nat) : Nat :=
  ((items.take i).map slowItemSize).sum

/-- A fast-path environment in which no collaborator call fails. -/
def FastClean (env : FastIterEnv) : Prop :=
  env.preErr = none ∧ env.iterErr = none ∧ env.finalErr = none ∧
  ∀ it ∈ env.items, it.slotErr = none ∧ it.updErr = none

/-- A slow-path environment in which no collaborator call fails. -/
def SlowClean (env : SlowIterEnv) : Prop :=
  env.openErr = none ∧ env.nodeIterErr = none ∧ env.finalErr = none

/-- The (hash, slot) pairs a clean fast-path run collects. -/
def fastSlots (items : List FastItem) : List (Hash × List Nat) :=
  items.map fun it => (it.hash, it.slot)

/-- The (key, blob) pairs a clean slow-path run collects: the leaves. -/
def slowSlots (items : List SlowItem) : List (Hash × List Nat) :=
  items.filterMap fun it =>
    match it with
    | .leaf key blob => some (key, blob)
    | .internal _ _ => none

theorem fastPrefixSize_cons (it : FastItem) (rest : List FastItem) (i : Nat) :
    fastPrefixSize (it :: rest) (i + 1) = fastItemSize it + fastPrefixSize rest i := by
  simp [fastPrefixSize, List.take_succ_cons]

theorem slowPrefixSize_cons (it : SlowItem) (rest : List SlowItem) (i : Nat) :
    slowPrefixSize (it :: rest) (i + 1) = slowItemSize it + slowPrefixSize rest i := by
  simp [slowPrefixSize, List.take_succ_cons]

theorem fastLoop_aborted_iff (root : Hash) (stackH : List (Hash × List Nat) → Hash)
    (items : List FastItem)
    (hclean : ∀ it ∈ items, it.slotErr = none ∧ it.updErr = none) :
    ∀ size slots,
      ((fastDeleteLoop root stackH none size slots items).aborted = true ↔
        ∃ i < items.length, storageDeleteLimit < size + fastPrefixSize items i) := by
  induction items with
  | nil =>
    intro size slots
    constructor
    · intro h
      exfalso
      by_cases hr : stackH slots = root <;> simp [fastDeleteLoop, hr] at h
    · rintro ⟨i, hi, _⟩
      exact absurd hi (by simp)
  | cons it rest ih =>
    intro size slots
    have hit := hclean it (by simp)
    have hrest : ∀ x ∈ rest, x.slotErr = none ∧ x.updErr = none :=
      fun x hx => hclean x (by simp [hx])
    by_cases hlt : storageDeleteLimit < size
    · simp only [fastDeleteLoop, if_pos hlt]
      constructor
      · intro _
        exact ⟨0, by simp, by simpa [fastPrefixSize] using hlt⟩
      · intro _; trivial
    · have hstep : fastDeleteLoop root stackH none size slots (it :: rest) =
        fastDeleteLoop root stackH none (size + (32 + it.slot.length) + it.nodeSize)
          (slots ++ [(it.hash, it.slot)]) rest := by
        simp [fastDeleteLoop, hlt, hit.1, hit.2]
      rw [hstep, ih hrest]
      constructor
      · rintro ⟨i, hi, hgt⟩
        refine ⟨i + 1, by simpa using hi, ?_⟩
        rw [fastPrefixSize_cons]
        simp only [fastItemSize] at *
        omega
      · rintro ⟨i, hi, hgt⟩
        cases i with
        | zero =>
          simp [fastPrefixSize] at hgt
          omega
        | succ i =>
          refine ⟨i, by simpa using hi, ?_⟩
          rw [fastPrefixSize_cons] at hgt
          simp only [fastItemSize] at *
          omega

theorem fastLoop_abort_shape (root : Hash) (stackH : List (Hash × List Nat) → Hash)
    (items : List FastItem)
    (hclean : ∀ it ∈ items, it.slotErr = none ∧ it.updErr = none) :
    ∀ size slots,
      (fastDeleteLoop root stackH none size slots items).aborted = true →
      (fastDeleteLoop root stackH none size slots items).err = none ∧
      (fastDeleteLoop root stackH none size slots items).slots = none := by
  induction items with
  | nil =>
    intro size slots h
    exfalso
    by_cases hr : stackH slots = root <;> simp [fastDeleteLoop, hr] at h
  | cons it rest ih =>
    intro size slots h
    have hit := hclean it (by simp)
    have hrest : ∀ x ∈ rest, x.slotErr = none ∧ x.updErr = none :=
      fun x hx => hclean x (by simp [hx])
    by_cases hlt : storageDeleteLimit < size
    · simp [fastDeleteLoop, hlt]
    · have hstep : fastDeleteLoop root stackH none size slots (it :: rest) =
        fastDeleteLoop root stackH none (size + (32 + it.slot.length) + it.nodeSize)
          (slots ++ [(it.hash, it.slot)]) rest := by
        simp [fastDeleteLoop, hlt, hit.1, hit.2]
      rw [hstep] at h ⊢
      exact ih hrest _ _ h

theorem fastLoop_success (root : Hash) (stackH : List (Hash × List Nat) → Hash)
    (items : List FastItem)
    (hclean : ∀ it ∈ items, it.slotErr = none ∧ it.updErr = none) :
    ∀ size slots,
      (fastDeleteLoop root stackH none size slots items).aborted = false →
      (fastDeleteLoop root stackH none size slots items).err = none →
      (fastDeleteLoop root stackH none size slots items).slots =
        some (slots ++ fastSlots items) ∧
      stackH (slots ++ fastSlots items) = root := by
  induction items with
  | nil =>
    intro size slots _ herr
    by_cases hr : stackH slots = root
    · simp [fastDeleteLoop, hr, fastSlots]
    · exfalso
      simp [fastDeleteLoop, hr] at herr
  | cons it rest ih =>
    intro size slots hab herr
    have hit := hclean it (by simp)
    have hrest : ∀ x ∈ rest, x.slotErr = none ∧ x.updErr = none :=
      fun x hx => hclean x (by simp [hx])
    by_cases hlt : storageDeleteLimit < size
    · exfalso
      simp [fastDeleteLoop, hlt] at hab
    · have hstep : fastDeleteLoop root stackH none size slots (it :: rest) =
        fastDeleteLoop root stackH none (size + (32 + it.slot.length) + it.nodeSize)
          (slots ++ [(it.hash, it.slot)]) rest := by
        simp [fastDeleteLoop, hlt, hit.1, hit.2]
      rw [hstep] at hab herr ⊢
      have := ih hrest _ _ hab herr
      simpa [fastSlots] using this

theorem slowLoop_aborted_iff (items : List SlowItem) :
    ∀ size slots,
      ((slowDeleteLoop none size slots items).aborted = true ↔
        ∃ i < items.length, storageDeleteLimit < size + slowPrefixSize items i) := by
  induction items with
  | nil =>
    intro size slots
    constructor
    · intro h; simp [slowDeleteLoop] at h
    · rintro ⟨i, hi, _⟩
      exact absurd hi (by simp)
  | cons it rest ih =>
    intro size slots
    by_cases hlt : storageDeleteLimit < size
    · simp only [slowDeleteLoop, if_pos hlt]
      constructor
      · intro _
        exact ⟨0, by simp, by simpa [slowPrefixSize] using hlt⟩
      · intro _; trivial
    · cases it with
      | leaf key blob =>
        have hstep : slowDeleteLoop none size slots (SlowItem.leaf key blob :: rest) =
            slowDeleteLoop none (size + (32 + blob.length)) (slots ++ [(key, blob)]) rest := by
          simp [slowDeleteLoop, hlt]
        rw [hstep, ih]
        constructor
        · rintro ⟨i, hi, hgt⟩
          refine ⟨i + 1, by simpa using hi, ?_⟩
          rw [slowPrefixSize_cons]
          simp only [slowItemSize] at *
          omega
        · rintro ⟨i, hi, hgt⟩
          cases i with
          | zero =>
            simp [slowPrefixSize] at hgt
            omega
          | succ i =>
            refine ⟨i, by simpa using hi, ?_⟩
            rw [slowPrefixSize_cons] at hgt
            simp only [slowItemSize] at *
            omega
      | internal pathLen h =>
        by_cases hz : h = 0
        · subst hz
          have hstep : slowDeleteLoop none size slots (SlowItem.internal pathLen 0 :: rest) =
              slowDeleteLoop none size slots rest := by
            simp [slowDeleteLoop, hlt]
          rw [hstep, ih]
          constructor
          · rintro ⟨i, hi, hgt⟩
            refine ⟨i + 1, by simpa using hi, ?_⟩
            rw [slowPrefixSize_cons]
            simp only [slowItemSize, if_pos rfl]
            omega
          · rintro ⟨i, hi, hgt⟩
            cases i with
            | zero =>
              simp [slowPrefixSize] at hgt
              omega
            | succ i =>
              refine ⟨i, by simpa using hi, ?_⟩
              rw [slowPrefixSize_cons] at hgt
              simp [slowItemSize] at hgt
              omega
        · have hstep : slowDeleteLoop none size slots (SlowItem.internal pathLen h :: rest) =
              slowDeleteLoop none (size + pathLen) slots rest := by
            simp [slowDeleteLoop, hlt, hz]
          rw [hstep, ih]
          constructor
          · rintro ⟨i, hi, hgt⟩
            refine ⟨i + 1, by simpa using hi, ?_⟩
            rw [slowPrefixSize_cons]
            simp only [slowItemSize, if_neg hz]
            omega
          · rintro ⟨i, hi, hgt⟩
            cases i with
            | zero =>
              simp [slowPrefixSize] at hgt
              omega
            | succ i =>
              refine ⟨i, by simpa using hi, ?_⟩
              rw [slowPrefixSize_cons] at hgt
              simp only [slowItemSize, if_neg hz] at hgt
              omega

theorem slowLoop_success (items : List SlowItem) :
    ∀ size slots,
      (slowDeleteLoop none size slots items).aborted = false →
      (slowDeleteLoop none size slots items).err = none ∧
      (slowDeleteLoop none size slots items).slots =
        some (slots ++ slowSlots items) := by
  induction items with
  | nil =>
    intro size slots _
    simp [slowDeleteLoop, slowSlots]
  | cons it rest ih =>
    intro size slots hab
    by_cases hlt : storageDeleteLimit < size
    · exfalso
      simp [slowDeleteLoop, hlt] at hab
    · cases it with
      | leaf key blob =>
        have hstep : slowDeleteLoop none size slots (SlowItem.leaf key blob :: rest) =
            slowDeleteLoop none (size + (32 + blob.length)) (slots ++ [(key, blob)]) rest := by
          simp [slowDeleteLoop, hlt]
        rw [hstep] at hab ⊢
        have := ih _ _ hab
        simpa [slowSlots] using this
      | internal pathLen h =>
        by_cases hz : h = 0
        · have hstep : slowDeleteLoop none size slots (SlowItem.internal pathLen h :: rest) =
              slowDeleteLoop none size slots rest := by
            simp [slowDeleteLoop, hlt, hz]
          rw [hstep] at hab ⊢
          have := ih _ _ hab
          simpa [slowSlots, hz] using this
        · have hstep : slowDeleteLoop none size slots (SlowItem.internal pathLen h :: rest) =
              slowDeleteLoop none (size + pathLen) slots rest := by
            simp [slowDeleteLoop, hlt, hz]
          rw [hstep] at hab ⊢
          have := ih _ _ hab
          simpa [slowSlots, hz] using this

/-- The loop's abort return carries a nil error (slow path). -/
theorem slowLoop_abort_err (items : List SlowItem) :
    ∀ size slots,
      (slowDeleteLoop none size slots items).aborted = true →
      (slowDeleteLoop none size slots items).err = none := by
  induction items with
  | nil =>
    intro size slots hab
    simp [slowDeleteLoop] at hab
  | cons it rest ih =>
    intro size slots hab
    by_cases hlt : storageDeleteLimit < size
    · simp [slowDeleteLoop, hlt]
    · cases it with
      | leaf key blob =>
        have hstep : slowDeleteLoop none size slots (SlowItem.leaf key blob :: rest) =
            slowDeleteLoop none (size + (32 + blob.length)) (slots ++ [(key, blob)]) rest := by
          simp [slowDeleteLoop, hlt]
        rw [hstep] at hab ⊢
        exact ih _ _ hab
      | internal pathLen h =>
        by_cases hz : h = 0
        · subst hz
          have hstep : slowDeleteLoop none size slots (SlowItem.internal pathLen 0 :: rest) =
              slowDeleteLoop none size slots rest := by
            simp [slowDeleteLoop, hlt]
          rw [hstep] at hab ⊢
          exact ih _ _ hab
        · have hstep : slowDeleteLoop none size slots (SlowItem.internal pathLen h :: rest) =
              slowDeleteLoop none (size + pathLen) slots rest := by
            simp [slowDeleteLoop, hlt, hz]
          rw [hstep] at hab ⊢
          exact ih _ _ hab

/-- The `(bool, map, nodes, error)` result of `deleteStorage` (the size is
dropped by the caller, metrics aside). -/
structure DelOut where
  aborted : Bool
  slots : Option (List (Hash × List Nat))
  err : Option Err
deriving Repr

/-- The collaborator environment of one `deleteStorage` run:
whether `s.snap != nil`, plus the fast- and slow-path environments. -/
structure DelEnv where
  snapPresent : Bool
  fast : FastIterEnv
  slow : SlowIterEnv

/-- `if s.snap != nil { ... = s.fastDeleteStorage(...) }`: the result held
in `deleteStorage`'s local variables after the fast-path attempt (all
zero values when no snapshot is present). -/
def fastAttempt (root : Hash) (env : DelEnv) : DelResult :=
  if env.snapPresent then fastDeleteStorage root env.fast else ⟨false, 0, none, none⟩

/-- The condition `s.snap == nil || err != nil` guarding the slow-path
retry inside `deleteStorage`. -/
def slowRuns (root : Hash) (env : DelEnv) : Bool :=
  !env.snapPresent || (fastAttempt root env).err.isSome

/-- The value of `deleteStorage`'s local result variables after the
fast-path attempt and the conditional slow-path retry. -/
def chosenResult (root : Hash) (env : DelEnv) : DelResult :=
  if slowRuns root env then slowDeleteStorage env.slow else fastAttempt root env

/-- `deleteStorage` (plugin_hooks.go:1639-1674): fast path when a snapshot
is present, slow-path retry when no snapshot or the fast path errored,
error short-circuit returning `(false, nil, nil, err)`. -/
def deleteStorage (root : Hash) (env : DelEnv) : DelOut :=
  match (chosenResult root env).err with
  | some e => ⟨false, none, some e⟩
  | none => ⟨(chosenResult root env).aborted, (chosenResult root env).slots, none⟩

end DelModel

/-- The concrete fast-path environment refuting claim C4 as stated: a
single iterator element whose total size contribution (32 bytes of hash
plus `storageDeleteLimit + 1` bytes of flushed node paths) exceeds the
512 MiB budget, so that the accumulated deletion size exceeds the limit
only after the final iterator element has been consumed — the loop's
entry check never fires.  (The same shape arises when the slot bytes
themselves carry the excess.) -/
def c4Env : DelModel.FastIterEnv :=
  { preErr := none, iterErr := none,
    items := [{ hash := 5, slot := [], slotErr := none,
                nodeSize := storageDeleteLimit + 1, updErr := none }],
    finalErr := none, stackHash := fun _ => 0 }

/-- C4 (counterexample): an account whose accumulated deletion size
exceeds `storageDeleteLimit` for which `fastDeleteStorage` nevertheless
returns `aborted = false` (with a nil error and a slot map), refuting
"aborted=true ... exactly when the accumulated deletion size ... exceeds
the 512 MiB storageDeleteLimit". -/
theorem c4_counterexample :
    (DelModel.fastDeleteStorage 0 c4Env).aborted = false ∧
    (DelModel.fastDeleteStorage 0 c4Env).err = none ∧
    (DelModel.fastDeleteStorage 0 c4Env).slots.isSome = true ∧
    storageDeleteLimit < (DelModel.fastDeleteStorage 0 c4Env).size := by
  have h : DelModel.fastDeleteStorage 0 c4Env =
      ⟨false, (0 + (32 + 0) + (storageDeleteLimit + 1)),
        some [(5, [])], none⟩ := by
    simp [DelModel.fastDeleteStorage, DelModel.fastDeleteLoop, c4Env]
  rw [h]
  refine ⟨rfl, rfl, rfl, ?_⟩
  show storageDeleteLimit < 0 + (32 + 0) + (storageDeleteLimit + 1)
  omega

/-- C4 (amended): with every collaborator call succeeding, the deletion
helpers return `aborted = true` (and a nil error) exactly when the size
accumulated over a proper prefix of the iteration already exceeds
`storageDeleteLimit` while a further element remains — not when the grand
total exceeds it; and a non-aborted, non-erroring run returns the full
slot map, the fast path additionally guaranteeing that the stack-trie
root recomputed from that map equals the expected prior storage root. -/
theorem c4_delete_budget_amended (root : Hash) (envF : DelModel.FastIterEnv)
    (envS : DelModel.SlowIterEnv)
    (hf : DelModel.FastClean envF) (hs : DelModel.SlowClean envS) :
    ((DelModel.fastDeleteStorage root envF).aborted = true ↔
      ∃ i < envF.items.length, storageDeleteLimit < DelModel.fastPrefixSize envF.items i) ∧
    ((DelModel.fastDeleteStorage root envF).aborted = true →
      (DelModel.fastDeleteStorage root envF).err = none) ∧
    ((DelModel.fastDeleteStorage root envF).aborted = false →
      (DelModel.fastDeleteStorage root envF).err = none →
      (DelModel.fastDeleteStorage root envF).slots = some (DelModel.fastSlots envF.items) ∧
      envF.stackHash (DelModel.fastSlots envF.items) = root) ∧
    ((DelModel.slowDeleteStorage envS).aborted = true ↔
      ∃ i < envS.items.length, storageDeleteLimit < DelModel.slowPrefixSize envS.items i) ∧
    ((DelModel.slowDeleteStorage envS).aborted = true →
      (DelModel.slowDeleteStorage envS).err = none) ∧
    ((DelModel.slowDeleteStorage envS).aborted = false →
      (DelModel.slowDeleteStorage envS).err = none ∧
      (DelModel.slowDeleteStorage envS).slots = some (DelModel.slowSlots envS.items)) := by
  obtain ⟨hpre, hiter, hfin, hitems⟩ := hf
  obtain ⟨hopen, hni, hsfin⟩ := hs
  have hfd : DelModel.fastDeleteStorage root envF =
      DelModel.fastDeleteLoop root envF.stackHash none 0 [] envF.items := by
    rw [DelModel.fastDeleteStorage, hpre, hiter, hfin]
  have hsd : DelModel.slowDeleteStorage envS =
      DelModel.slowDeleteLoop none 0 [] envS.items := by
    rw [DelModel.slowDeleteStorage, hopen, hni, hsfin]
  refine ⟨?_, ?_, ?_, ?_, ?_, ?_⟩
  · rw [hfd, DelModel.fastLoop_aborted_iff root envF.stackHash envF.items hitems 0 []]
    simp
  · intro hab
    rw [hfd] at hab ⊢
    exact (DelModel.fastLoop_abort_shape root envF.stackHash envF.items hitems 0 [] hab).1
  · intro hab herr
    rw [hfd] at hab herr ⊢
    have := DelModel.fastLoop_success root envF.stackHash envF.items hitems 0 [] hab herr
    simpa using this
  · rw [hsd, DelModel.slowLoop_aborted_iff envS.items 0 []]
    simp
  · intro hab
    rw [hsd] at hab ⊢
    exact DelModel.slowLoop_abort_err envS.items 0 [] hab
  · intro hab
    rw [hsd] at hab ⊢
    have := DelModel.slowLoop_success envS.items 0 [] hab
    simpa using this

/-- Concrete clean fast-path environment for the C4 witness. -/
def c4WitEnvF : DelModel.FastIterEnv :=
  { preErr := none, iterErr := none,
    items := [{ hash := 3, slot := [1, 2], slotErr := none, nodeSize := 1, updErr := none }],
    finalErr := none, stackHash := fun _ => 9 }

/-- Concrete clean slow-path environment for the C4 witness. -/
def c4WitEnvS : DelModel.SlowIterEnv :=
  { openErr := none, nodeIterErr := none,
    items := [.leaf 4 [7], .internal 2 0, .internal 3 5], finalErr := none }

/-- Witness for C4 (amended) at concrete clean environments. -/
theorem c4_delete_budget_amended_witness :
    DelModel.FastClean c4WitEnvF ∧ DelModel.SlowClean c4WitEnvS ∧
    ((DelModel.fastDeleteStorage 9 c4WitEnvF).aborted = true ↔
      ∃ i < c4WitEnvF.items.length,
        storageDeleteLimit < DelModel.fastPrefixSize c4WitEnvF.items i) := by
  have h1 : DelModel.FastClean c4WitEnvF := by
    refine ⟨rfl, rfl, rfl, ?_⟩
    intro it hit
    simp only [c4WitEnvF, List.mem_singleton] at hit
    subst hit
    exact ⟨rfl, rfl⟩
  have h2 : DelModel.SlowClean c4WitEnvS := ⟨rfl, rfl, rfl⟩
  exact ⟨h1, h2, (c4_delete_budget_amended 9 c4WitEnvF c4WitEnvS h1 h2).1⟩

namespace CommitModel

/-!
## The commit pipeline (claims C3, C5, C8)

`setError`/`Error` (plugin_hooks.go:619-629), `handleDestruction`
(plugin_hooks.go:1700-1756) and `Commit` (plugin_hooks.go:1766-1923).
`Commit` is embedded as a function producing the returned `(root, error)`
pair together with the ordered trace of externally observable commit
steps; the trie, the snapshot tree and the trie database are oracle
parameters.  Bookkeeping with no bearing on the verified properties
(metrics, the dirty-code batch, the `accountsOrigin`/`storagesOrigin`
reverse-diff maps written by `handleDestruction`, the per-object storage
commits) is not tracked.
-/

/-- An externally observable step of `Commit`, in execution order. -/
inductive Event where
  | interRoot
  | storageDelete (addr : Addr)
  | trieCommit (root : Hash)
  | notify (blockRoot parentRoot : Hash)
  | snapUpdate (blockRoot parentRoot : Hash)
  | snapCap (root : Hash)
  | trieDBUpdate (root origin : Hash)
deriving DecidableEq, Repr

/-- `setError` (plugin_hooks.go:619-624): remembers the first non-nil
error it is called with. -/
def setError (dbErr : Option Err) (e : Err) : Option Err :=
  match dbErr with
  | none => some e
  | some e0 => some e0

/-- The oracle environment of one `Commit` run. -/
structure CommitEnv where
  /-- `s.db.TrieDB().Scheme() == rawdb.HashScheme` -/
  isHashScheme : Bool
  /-- per-destructed-account deletion collaborators -/
  delEnv : Addr → DelModel.DelEnv
  /-- result of `s.trie.Commit(true)` -/
  trieCommitResult : Except Err Hash
  /-- error of `s.db.TrieDB().Update(...)` -/
  trieDBErr : Option Err

/-- The slice of the manager state `Commit` consults. -/
structure CommitIn where
  dbErr : Option Err
  originalRoot : Hash
  /-- `stateObjectsDestruct`: destructed address with its previous value -/
  destructs : List (Addr × Option StateAccount)
  snapPresent : Bool
  /-- `s.snap.Root()` -/
  snapRoot : Hash
  /-- whether `s.snap` is the `*pluginSnapshot` fallback -/
  snapIsPlugin : Bool
  /-- `s.snaps != nil` -/
  snapsPresent : Bool

/-- The per-marker loop of `handleDestruction`: skip non-existent
originals (cases a/b) and empty prior storage roots, otherwise run
`deleteStorage`, failing the whole commit on error and recording
oversized accounts as incomplete. -/
def hdGo (env : CommitEnv) : List (Addr × Option StateAccount) →
    Except Err (List Addr × List Event)
  | [] => .ok ([], [])
  | (addr, prev) :: rest =>
    match prev with
    | none => hdGo env rest
    | some p =>
      if p.root = EmptyRootHash then hdGo env rest
      else
        match (DelModel.deleteStorage p.root (env.delEnv addr)).err with
        | some e => .error (.fmtErrorf "failed to delete storage" e)
        | none =>
          match hdGo env rest with
          | .error e => .error e
          | .ok (inc, tr) =>
            if (DelModel.deleteStorage p.root (env.delEnv addr)).aborted then
              .ok (addr :: inc, .storageDelete addr :: tr)
            else .ok (inc, .storageDelete addr :: tr)

/-- `handleDestruction` (plugin_hooks.go:1700-1756): short-circuits in
hash mode, otherwise processes every destruct marker. -/
def handleDestruction (env : CommitEnv) (destructs : List (Addr × Option StateAccount)) :
    Except Err (List Addr × List Event) :=
  if env.isHashScheme then .ok ([], []) else hdGo env destructs

/-- The snapshot section of `Commit` (plugin_hooks.go:1861-1887) as an
event trace: with a snapshot handle present and a state transition
(`parent != root`), the PluGeth `pluginStateUpdate` notification is
emitted first, then — unless the handle is the fallback `pluginSnapshot`
or no snapshot tree exists — `s.snaps.Update` and `s.snaps.Cap` are
applied (their failures are only logged). -/
def snapSection (s : CommitIn) (root : Hash) : List Event :=
  if s.snapPresent then
    if s.snapRoot ≠ root then
      Event.notify root s.snapRoot ::
        (if (!s.snapIsPlugin) && s.snapsPresent then
          [Event.snapUpdate root s.snapRoot, Event.snapCap root]
        else [])
    else []
  else []

/-- The zero-hash → `EmptyRootHash` substitution applied to both sides of
the root comparison at the end of `Commit`. -/
def finHash (h : Hash) : Hash := if h = 0 then EmptyRootHash else h

/-- `Commit` (plugin_hooks.go:1766-1923): memoized-error gate, then
`IntermediateRoot`, destruction handling, account-trie commit, the
snapshot section, the zero-hash → `EmptyRootHash` substitution, and the
trie-database update (only on a root change). -/
def Commit (env : CommitEnv) (s : CommitIn) : Hash × Option Err × List Event :=
  match s.dbErr with
  | some e => (0, some (.fmtErrorf "commit aborted due to earlier error" e), [])
  | none =>
    match handleDestruction env s.destructs with
    | .error e => (0, some e, [Event.interRoot])
    | .ok (_incomplete, trDel) =>
      match env.trieCommitResult with
      | .error e => (0, some e, Event.interRoot :: trDel)
      | .ok root =>
        if finHash root ≠ finHash s.originalRoot then
          match env.trieDBErr with
          | some e =>
            (0, some e, Event.interRoot :: trDel ++ [Event.trieCommit root] ++ snapSection s root)
          | none =>
            (finHash root, none,
              Event.interRoot :: trDel ++ [Event.trieCommit root] ++ snapSection s root ++
                [Event.trieDBUpdate (finHash root) (finHash s.originalRoot)])
        else
          (finHash root, none,
            Event.interRoot :: trDel ++ [Event.trieCommit root] ++ snapSection s root)

/-- Every event a successful `handleDestruction` records is a storage
deletion. -/
theorem hdGo_events (env : CommitEnv) (d : List (Addr × Option StateAccount))
    (inc : List Addr) (tr : List Event) (h : hdGo env d = .ok (inc, tr)) :
    ∀ ev ∈ tr, ∃ a, ev = Event.storageDelete a := by
  induction d generalizing inc tr with
  | nil =>
    simp only [hdGo, Except.ok.injEq, Prod.mk.injEq] at h
    rw [← h.2]
    intro ev hev
    exact absurd hev (by simp)
  | cons hd rest ih =>
    obtain ⟨addr, prev⟩ := hd
    cases prev with
    | none => exact ih inc tr h
    | some p =>
      by_cases hr : p.root = EmptyRootHash
      · rw [hdGo, if_pos hr] at h
        exact ih inc tr h
      · rw [hdGo, if_neg hr] at h
        cases herr : (DelModel.deleteStorage p.root (env.delEnv addr)).err with
        | some e => rw [herr] at h; exact absurd h (by simp)
        | none =>
          rw [herr] at h
          cases hrec : hdGo env rest with
          | error e => rw [hrec] at h; exact absurd h (by simp)
          | ok v =>
            obtain ⟨inc0, tr0⟩ := v
            rw [hrec] at h
            have htr0 := ih inc0 tr0 hrec
            by_cases hab : (DelModel.deleteStorage p.root (env.delEnv addr)).aborted = true
            · simp only [hab, if_true, Except.ok.injEq, Prod.mk.injEq] at h
              rw [← h.2]
              intro ev hev
              rcases List.mem_cons.1 hev with hev | hev
              · exact ⟨addr, hev⟩
              · exact htr0 ev hev
            · simp only [hab, if_false, Bool.false_eq_true, Except.ok.injEq, Prod.mk.injEq] at h
              rw [← h.2]
              intro ev hev
              rcases List.mem_cons.1 hev with hev | hev
              · exact ⟨addr, hev⟩
              · exact htr0 ev hev

end CommitModel

/-- Every event a successful `handleDestruction` records is a storage
deletion. -/
theorem handleDestruction_events (env : CommitModel.CommitEnv)
    (d : List (Addr × Option StateAccount)) (inc : List Addr)
    (tr : List CommitModel.Event)
    (h : CommitModel.handleDestruction env d = .ok (inc, tr)) :
    ∀ ev ∈ tr, ∃ a, ev = CommitModel.Event.storageDelete a := by
  rw [CommitModel.handleDestruction] at h
  by_cases hs : env.isHashScheme = true
  · rw [if_pos hs] at h
    simp only [Except.ok.injEq, Prod.mk.injEq] at h
    rw [← h.2]
    intro ev hev
    exact absurd hev (by simp)
  · rw [if_neg hs] at h
    exact CommitModel.hdGo_events env d inc tr h

/-- C3: `setError` memoizes only the first non-nil error; with an error
memoized, `Commit` returns the zero hash together with an error wrapping
that first error, performing none of its commit steps (empty step
trace: no state deletion, no trie commit, no snapshot update, no
trie-database update). -/
theorem c3_seterror_commit_gate (env : CommitModel.CommitEnv)
    (s : CommitModel.CommitIn) (e0 e : Err) (es : List Err)
    (hdb : s.dbErr = some e0) :
    CommitModel.setError none e = some e ∧
    CommitModel.setError (some e0) e = some e0 ∧
    List.foldl CommitModel.setError (some e0) es = some e0 ∧
    CommitModel.Commit env s =
      (0, some (.fmtErrorf "commit aborted due to earlier error" e0), []) := by
  refine ⟨rfl, rfl, ?_, ?_⟩
  · induction es with
    | nil => rfl
    | cons x xs ih => exact ih
  · rw [CommitModel.Commit, hdb]

/-- Shared trivial deletion environment for commit-pipeline witnesses. -/
def cWitDelEnvTrivial : DelModel.DelEnv :=
  { snapPresent := false,
    fast := { preErr := none, iterErr := none, items := [], finalErr := none,
              stackHash := fun _ => 0 },
    slow := { openErr := none, nodeIterErr := none, items := [], finalErr := none } }

/-- Concrete commit environment for the C3 witness. -/
def c3WitEnv : CommitModel.CommitEnv :=
  { isHashScheme := false, delEnv := fun _ => cWitDelEnvTrivial,
    trieCommitResult := .ok 5, trieDBErr := none }

/-- Concrete manager state for the C3 witness: a memoized read error. -/
def c3WitIn : CommitModel.CommitIn :=
  { dbErr := some (.msg "leveldb: io failure"), originalRoot := 4, destructs := [],
    snapPresent := true, snapRoot := 4, snapIsPlugin := false, snapsPresent := true }

/-- Witness for C3 at a concrete memoized error. -/
theorem c3_seterror_commit_gate_witness :
    c3WitIn.dbErr = some (.msg "leveldb: io failure") ∧
    CommitModel.Commit c3WitEnv c3WitIn =
      (0, some (.fmtErrorf "commit aborted due to earlier error"
        (.msg "leveldb: io failure")), []) :=
  ⟨rfl, (c3_seterror_commit_gate c3WitEnv c3WitIn (.msg "leveldb: io failure")
    (.msg "other") [] rfl).2.2.2⟩

/-- C5: the slow deletion path is attempted exactly when no snapshot is
available or the fast path returned a non-nil error; `deleteStorage`
returns a non-nil error only when the slow path itself failed; and such
an error propagates through `handleDestruction` to `Commit`'s caller as
a zero hash plus non-nil error. -/
theorem c5_slow_retry_and_error_propagation
    (root : Hash) (denv : DelModel.DelEnv) (env : CommitModel.CommitEnv)
    (s : CommitModel.CommitIn) :
    (DelModel.slowRuns root denv = true ↔
      denv.snapPresent = false ∨
      (DelModel.fastDeleteStorage root denv.fast).err.isSome = true) ∧
    (∀ e, (DelModel.deleteStorage root denv).err = some e →
      DelModel.slowRuns root denv = true ∧
      (DelModel.slowDeleteStorage denv.slow).err = some e) ∧
    (∀ addr p rest e, env.isHashScheme = false →
      s.destructs = (addr, some p) :: rest → p.root ≠ EmptyRootHash →
      (DelModel.deleteStorage p.root (env.delEnv addr)).err = some e →
      CommitModel.handleDestruction env s.destructs =
        .error (.fmtErrorf "failed to delete storage" e)) ∧
    (∀ e, s.dbErr = none → CommitModel.handleDestruction env s.destructs = .error e →
      (CommitModel.Commit env s).1 = 0 ∧ (CommitModel.Commit env s).2.1 = some e) := by
  refine ⟨?_, ?_, ?_, ?_⟩
  · cases hsp : denv.snapPresent <;>
      simp [DelModel.slowRuns, DelModel.fastAttempt, hsp]
  · intro e he
    rw [DelModel.deleteStorage] at he
    by_cases hrun : DelModel.slowRuns root denv = true
    · rw [DelModel.chosenResult, if_pos hrun] at he
      cases hse : (DelModel.slowDeleteStorage denv.slow).err with
      | some e' =>
        rw [hse] at he
        simp only [Option.some.injEq] at he
        exact ⟨hrun, by rw [he]⟩
      | none => rw [hse] at he; exact absurd he (by simp)
    · exfalso
      rw [DelModel.chosenResult, if_neg hrun] at he
      have hsp : denv.snapPresent = true := by
        cases hb : denv.snapPresent
        · exact absurd (by simp [DelModel.slowRuns, hb]) hrun
        · rfl
      rw [DelModel.fastAttempt, if_pos hsp] at he
      cases hfr : (DelModel.fastDeleteStorage root denv.fast).err with
      | some e' =>
        exact hrun (by simp [DelModel.slowRuns, DelModel.fastAttempt, hsp, hfr])
      | none =>
        rw [hfr] at he
        exact absurd he (by simp)
  · intro addr p rest e hh hs hroot he
    rw [CommitModel.handleDestruction, if_neg (by simp [hh]), hs,
      CommitModel.hdGo, if_neg hroot, he]
  · intro e hdb hhd
    rw [CommitModel.Commit, hdb, hhd]
    exact ⟨rfl, rfl⟩

/-- Concrete deletion environment for the C5 witness: no snapshot, and a
slow path that fails opening the storage trie. -/
def c5WitDelEnv : DelModel.DelEnv :=
  { snapPresent := false,
    fast := { preErr := none, iterErr := none, items := [], finalErr := none,
              stackHash := fun _ => 0 },
    slow := { openErr := some (.msg "missing trie node"), nodeIterErr := none,
              items := [], finalErr := none } }

/-- Concrete commit environment for the C5 witness. -/
def c5WitEnv : CommitModel.CommitEnv :=
  { isHashScheme := false, delEnv := fun _ => c5WitDelEnv,
    trieCommitResult := .ok 5, trieDBErr := none }

/-- Concrete manager state for the C5 witness: one destructed account
with non-empty prior storage root 3. -/
def c5WitIn : CommitModel.CommitIn :=
  { dbErr := none, originalRoot := 4,
    destructs := [(1, some { nonce := 1, balance := 100, root := 3, codeHash := 2 })],
    snapPresent := true, snapRoot := 4, snapIsPlugin := false, snapsPresent := true }

/-- Witness for C5: the concrete slow-path failure surfaces as `Commit`
returning the zero hash and the wrapped deletion error. -/
theorem c5_slow_retry_and_error_propagation_witness :
    (DelModel.deleteStorage 3 c5WitDelEnv).err =
      some (.fmtErrorf "failed to open storage trie" (.msg "missing trie node")) ∧
    (CommitModel.Commit c5WitEnv c5WitIn).1 = 0 ∧
    (CommitModel.Commit c5WitEnv c5WitIn).2.1 =
      some (.fmtErrorf "failed to delete storage"
        (.fmtErrorf "failed to open storage trie" (.msg "missing trie node"))) := by
  have hdel : (DelModel.deleteStorage 3 c5WitDelEnv).err =
      some (.fmtErrorf "failed to open storage trie" (.msg "missing trie node")) := rfl
  have h := c5_slow_retry_and_error_propagation 3 c5WitDelEnv c5WitEnv c5WitIn
  have hhd := h.2.2.1 1 { nonce := 1, balance := 100, root := 3, codeHash := 2 } []
    (.fmtErrorf "failed to open storage trie" (.msg "missing trie node"))
    rfl rfl (by decide) hdel
  exact ⟨hdel, h.2.2.2 _ rfl hhd⟩

/-- C8: during `Commit` with a snapshot handle present, a root change
makes the state-update notification be emitted, before the snapshot
tree's `Update` whenever the latter applies; with the root unchanged
from the snapshot root, no notification is emitted. -/
theorem c8_notify_before_snap_update
    (env : CommitModel.CommitEnv) (s : CommitModel.CommitIn)
    (inc : List Addr) (trDel : List CommitModel.Event) (root : Hash)
    (hdb : s.dbErr = none)
    (hhd : CommitModel.handleDestruction env s.destructs = .ok (inc, trDel))
    (htc : env.trieCommitResult = .ok root)
    (hsp : s.snapPresent = true) :
    (s.snapRoot ≠ root → s.snapIsPlugin = false → s.snapsPresent = true →
      ∃ pre post, (CommitModel.Commit env s).2.2 =
        pre ++ CommitModel.Event.notify root s.snapRoot ::
          CommitModel.Event.snapUpdate root s.snapRoot ::
          CommitModel.Event.snapCap root :: post ∧
        (∀ a b, CommitModel.Event.notify a b ∉ pre) ∧
        (∀ a b, CommitModel.Event.snapUpdate a b ∉ pre)) ∧
    (s.snapRoot ≠ root →
      CommitModel.Event.notify root s.snapRoot ∈ (CommitModel.Commit env s).2.2) ∧
    (s.snapRoot = root →
      ∀ a b, CommitModel.Event.notify a b ∉ (CommitModel.Commit env s).2.2) := by
  have hevents := handleDestruction_events env s.destructs inc trDel hhd
  have hpre_notify : ∀ a b, CommitModel.Event.notify a b ∉
      CommitModel.Event.interRoot :: trDel ++ [CommitModel.Event.trieCommit root] := by
    intro a b hmem
    rcases List.mem_cons.1 hmem with hmem | hmem
    · exact absurd hmem (by simp)
    · rcases List.mem_append.1 hmem with hmem | hmem
      · obtain ⟨x, hx⟩ := hevents _ hmem
        exact absurd hx (by simp)
      · exact absurd hmem (by simp)
  have hpre_upd : ∀ a b, CommitModel.Event.snapUpdate a b ∉
      CommitModel.Event.interRoot :: trDel ++ [CommitModel.Event.trieCommit root] := by
    intro a b hmem
    rcases List.mem_cons.1 hmem with hmem | hmem
    · exact absurd hmem (by simp)
    · rcases List.mem_append.1 hmem with hmem | hmem
      · obtain ⟨x, hx⟩ := hevents _ hmem
        exact absurd hx (by simp)
      · exact absurd hmem (by simp)
  have htrace : ∃ tail,
      ((CommitModel.Commit env s).2.2 =
        (CommitModel.Event.interRoot :: trDel ++ [CommitModel.Event.trieCommit root]) ++
          CommitModel.snapSection s root ++ tail) ∧
      (∀ a b, CommitModel.Event.notify a b ∉ tail) ∧
      (∀ a b, CommitModel.Event.snapUpdate a b ∉ tail) := by
    simp only [CommitModel.Commit, hdb, hhd, htc]
    by_cases hr : CommitModel.finHash root ≠ CommitModel.finHash s.originalRoot
    · rw [if_pos hr]
      cases htd : env.trieDBErr with
      | some e =>
        refine ⟨[], by simp, by simp, by simp⟩
      | none =>
        refine ⟨[CommitModel.Event.trieDBUpdate (CommitModel.finHash root)
          (CommitModel.finHash s.originalRoot)], by simp, ?_, ?_⟩ <;>
          · intro a b hmem
            simp at hmem
    · rw [if_neg hr]
      refine ⟨[], by simp, by simp, by simp⟩
  obtain ⟨tail, htr, htn, htu⟩ := htrace
  refine ⟨?_, ?_, ?_⟩
  · intro hne hpl hsn
    have hsec : CommitModel.snapSection s root =
        [CommitModel.Event.notify root s.snapRoot,
         CommitModel.Event.snapUpdate root s.snapRoot,
         CommitModel.Event.snapCap root] := by
      rw [CommitModel.snapSection, if_pos hsp, if_pos hne, hpl, hsn]
      rfl
    refine ⟨CommitModel.Event.interRoot :: trDel ++ [CommitModel.Event.trieCommit root],
      tail, ?_, hpre_notify, hpre_upd⟩
    rw [htr, hsec]
    simp
  · intro hne
    have hsec : CommitModel.Event.notify root s.snapRoot ∈ CommitModel.snapSection s root := by
      rw [CommitModel.snapSection, if_pos hsp, if_pos hne]
      exact List.mem_cons_self _ _
    rw [htr]
    exact List.mem_append.2 (.inl (List.mem_append.2 (.inr hsec)))
  · intro heq a b hmem
    have hsec : CommitModel.snapSection s root = [] := by
      rw [CommitModel.snapSection, if_pos hsp, if_neg (by simp [heq])]
    rw [htr, hsec] at hmem
    rcases List.mem_append.1 hmem with hmem | hmem
    · rcases List.mem_append.1 hmem with hmem | hmem
      · exact hpre_notify a b hmem
      · exact absurd hmem (by simp)
    · exact htn a b hmem

/-- Concrete commit environment for the C8 witness. -/
def c8WitEnv : CommitModel.CommitEnv :=
  { isHashScheme := false, delEnv := fun _ => cWitDelEnvTrivial,
    trieCommitResult := .ok 5, trieDBErr := none }

/-- Concrete manager state for the C8 witness: snapshot present at root 4,
new root 5. -/
def c8WitIn : CommitModel.CommitIn :=
  { dbErr := none, originalRoot := 4, destructs := [],
    snapPresent := true, snapRoot := 4, snapIsPlugin := false, snapsPresent := true }

/-- Witness for C8 at a concrete root-changing commit. -/
theorem c8_notify_before_snap_update_witness :
    ∃ pre post, (CommitModel.Commit c8WitEnv c8WitIn).2.2 =
      pre ++ CommitModel.Event.notify 5 4 ::
        CommitModel.Event.snapUpdate 5 4 ::
        CommitModel.Event.snapCap 5 :: post ∧
      (∀ a b, CommitModel.Event.notify a b ∉ pre) ∧
      (∀ a b, CommitModel.Event.snapUpdate a b ∉ pre) :=
  (c8_notify_before_snap_update c8WitEnv c8WitIn [] [] 5 rfl rfl rfl rfl).1
    (by decide) rfl rfl

namespace MVModel

/-!
## The MVCC read path (claim C7)

`MVRead` (plugin_hooks.go:411-471), `HadInvalidRead` / `DepTxIndex`
(plugin_hooks.go:395-401).  The multi-version map `s.mvHashmap.Read` is
an external collaborator (package `blockstm`); its result is an oracle
parameter carrying the status, the dependency index, the incarnation and
the writer's state value.  A Go panic is embedded as a `none` result.
-/

/-- `blockstm.Key`: a whole account, a sub-field, or a storage slot. -/
inductive Key where
  | address (a : Addr)
  | subpath (a : Addr) (p : Nat)
  | state (a : Addr) (slot : Hash)
deriving DecidableEq, Repr

/-- `Key.IsAddress()`. -/
def Key.IsAddress : Key → Bool
  | .address _ => true
  | _ => false

/-- `Key.GetAddress()`. -/
def Key.GetAddress : Key → Addr
  | .address a => a
  | .subpath a _ => a
  | .state a _ => a

/-- `blockstm.ReadKindMap`. -/
def ReadKindMap : Nat := 0

/-- `blockstm.ReadKindStorage`. -/
def ReadKindStorage : Nat := 1

/-- The status of an `MVHashMap.Read` result. -/
inductive MVStatus where
  | done
  | dependency
  | noStatus
deriving DecidableEq, Repr

/-- The oracle result of `s.mvHashmap.Read(k, s.txIndex)`: status,
`res.DepIdx()`, `res.Incarnation()` and `res.Value()` (the writer's
StateDB, of abstract type `σ`). -/
structure MVRes (σ : Type) where
  status : MVStatus
  depIdx : Int
  incarnation : Nat
  value : σ

/-- `blockstm.ReadDescriptor`. -/
structure ReadDesc where
  path : Key
  verIdx : Int
  verInc : Nat
  kind : Nat
deriving DecidableEq, Repr

/-- The slice of the manager the MVCC read path touches. -/
structure MVState where
  /-- `s.mvHashmap != nil` -/
  mvActive : Bool
  /-- `s.dep`, `-1` when no invalid read happened -/
  dep : Int
  /-- the per-transaction read set (post-`ensureReadMap` view) -/
  readMap : Key → Option ReadDesc
  /-- the nil-able per-transaction write set (key membership) -/
  writeMapKeys : Option (List Key)
  /-- `s.getStateObject(addr) != nil` -/
  objectExists : Addr → Bool

/-- `s.HadInvalidRead()`: `s.dep >= 0`. -/
def HadInvalidRead (s : MVState) : Bool := decide (0 ≤ s.dep)

/-- `s.DepTxIndex()`. -/
def DepTxIndex (s : MVState) : Int := s.dep

/-- The tail of `MVRead`: a read descriptor is recorded only if the key
has no descriptor yet. -/
def recordRead (s : MVState) (k : Key) (rd : ReadDesc) : MVState :=
  match s.readMap k with
  | some _ => s
  | none => { s with readMap := fun k' => if k' = k then some rd else s.readMap k' }

/-- `MVRead` (plugin_hooks.go:411-471).  `mapRead` is the oracle result
of the multi-version-map lookup; `readStorageLocal` is `readStorage(s)`
and `readStorageOf` is `readStorage` applied to the Done value.  The
first component is `none` exactly when the Go code panics. -/
def MVRead {T σ : Type} (s : MVState) (k : Key) (defaultV : T)
    (mapRead : MVRes σ) (readStorageLocal : T) (readStorageOf : σ → T) :
    Option T × MVState :=
  if s.mvActive = false then (some readStorageLocal, s)
  else if (match s.writeMapKeys with
           | some ks => ks.contains k
           | none => false) then (some readStorageLocal, s)
  else if k.IsAddress = false ∧ s.objectExists k.GetAddress = false then
    (some defaultV, s)
  else
    match mapRead.status with
    | .done =>
      (some (readStorageOf mapRead.value),
        recordRead s k
          { path := k, verIdx := mapRead.depIdx, verInc := mapRead.incarnation,
            kind := ReadKindMap })
    | .dependency => (none, { s with dep := mapRead.depIdx })
    | .noStatus =>
      (some readStorageLocal,
        recordRead s k
          { path := k, verIdx := mapRead.depIdx, verInc := mapRead.incarnation,
            kind := ReadKindStorage })

end MVModel

/-- C7: with the MVCC map active and the lookup actually performed (the
key is not in the write set and is not a sub-path of a locally deleted
account), a Dependency result makes `MVRead` record the conflicting
transaction index in `dep` (so `HadInvalidRead` becomes true and
`DepTxIndex` returns it) and panic, returning no value and recording no
read descriptor; Done and None results return a value without
panicking. -/
theorem c7_mvread_dependency {T σ : Type} (s : MVModel.MVState) (k : MVModel.Key)
    (defaultV : T) (mapRead : MVModel.MVRes σ) (rsl : T) (rso : σ → T)
    (hactive : s.mvActive = true)
    (hwm : (match s.writeMapKeys with
            | some ks => ks.contains k
            | none => false) = false)
    (hobj : k.IsAddress = true ∨ s.objectExists k.GetAddress = true) :
    (mapRead.status = .dependency → 0 ≤ mapRead.depIdx →
      (MVModel.MVRead s k defaultV mapRead rsl rso).1 = none ∧
      (MVModel.MVRead s k defaultV mapRead rsl rso).2 =
        { s with dep := mapRead.depIdx } ∧
      MVModel.HadInvalidRead (MVModel.MVRead s k defaultV mapRead rsl rso).2 = true ∧
      MVModel.DepTxIndex (MVModel.MVRead s k defaultV mapRead rsl rso).2 =
        mapRead.depIdx ∧
      (MVModel.MVRead s k defaultV mapRead rsl rso).2.readMap = s.readMap) ∧
    (mapRead.status = .done →
      (MVModel.MVRead s k defaultV mapRead rsl rso).1 = some (rso mapRead.value)) ∧
    (mapRead.status = .noStatus →
      (MVModel.MVRead s k defaultV mapRead rsl rso).1 = some rsl) := by
  have hnot : ¬(k.IsAddress = false ∧ s.objectExists k.GetAddress = false) := by
    rintro ⟨h1, h2⟩
    rcases hobj with h | h
    · rw [h1] at h; exact absurd h (by simp)
    · rw [h2] at h; exact absurd h (by simp)
  have hred : ∀ (x : Option T × MVModel.MVState),
      MVModel.MVRead s k defaultV mapRead rsl rso = x ↔
      (match mapRead.status with
       | MVModel.MVStatus.done =>
         (some (rso mapRead.value),
           MVModel.recordRead s k
             { path := k, verIdx := mapRead.depIdx, verInc := mapRead.incarnation,
               kind := MVModel.ReadKindMap })
       | MVModel.MVStatus.dependency => (none, { s with dep := mapRead.depIdx })
       | MVModel.MVStatus.noStatus =>
         (some rsl,
           MVModel.recordRead s k
             { path := k, verIdx := mapRead.depIdx, verInc := mapRead.incarnation,
               kind := MVModel.ReadKindStorage })) = x := by
    intro x
    rw [MVModel.MVRead, if_neg (by rw [hactive]; simp), if_neg (by rw [hwm]; simp),
      if_neg hnot]
  refine ⟨?_, ?_, ?_⟩
  · intro hdep hge
    have h := (hred _).2 rfl
    rw [hdep] at h
    have h2 : MVModel.MVRead s k defaultV mapRead rsl rso =
        (none, { s with dep := mapRead.depIdx }) := h
    rw [h2]
    refine ⟨rfl, rfl, ?_, rfl, rfl⟩
    simp [MVModel.HadInvalidRead, hge]
  · intro hdone
    have h := (hred _).2 rfl
    rw [hdone] at h
    have h2 : MVModel.MVRead s k defaultV mapRead rsl rso =
        (some (rso mapRead.value),
          MVModel.recordRead s k
            { path := k, verIdx := mapRead.depIdx, verInc := mapRead.incarnation,
              kind := MVModel.ReadKindMap }) := h
    rw [h2]
  · intro hno
    have h := (hred _).2 rfl
    rw [hno] at h
    have h2 : MVModel.MVRead s k defaultV mapRead rsl rso =
        (some rsl,
          MVModel.recordRead s k
            { path := k, verIdx := mapRead.depIdx, verInc := mapRead.incarnation,
              kind := MVModel.ReadKindStorage }) := h
    rw [h2]

/-- Concrete state for the C7 witness. -/
def c7WitState : MVModel.MVState :=
  { mvActive := true, dep := -1, readMap := fun _ => none,
    writeMapKeys := some [], objectExists := fun _ => true }

/-- Concrete dependency lookup result for the C7 witness. -/
def c7WitRes : MVModel.MVRes Unit :=
  { status := .dependency, depIdx := 2, incarnation := 0, value := () }

/-- Witness for C7 at a concrete dependency hit on a balance sub-path. -/
theorem c7_mvread_dependency_witness :
    (MVModel.MVRead c7WitState (.subpath 9 1) (0 : Int) c7WitRes 0 (fun _ => 0)).1 =
      none ∧
    MVModel.HadInvalidRead
      (MVModel.MVRead c7WitState (.subpath 9 1) (0 : Int) c7WitRes 0 (fun _ => 0)).2 =
      true := by
  have h := c7_mvread_dependency c7WitState (.subpath 9 1) (0 : Int) c7WitRes 0
    (fun _ => 0) rfl rfl (Or.inr rfl)
  have hd := h.1 rfl (by decide)
  exact ⟨hd.1, hd.2.2.1⟩

namespace ReadModel

/-!
## Absent-account reads (claim C10)

`getStateObject`/`getDeletedStateObject` (plugin_hooks.go:1066-1159) and
the getters `GetBalance`/`GetNonce` (plugin_hooks.go:722-744),
`GetCodeHash` (plugin_hooks.go:790-799), `Exist` (plugin_hooks.go:696-700),
with parallel execution inactive (`mvHashmap == nil`), in which case
`MVRead` is exactly `readStorage(s)`.  The account snapshot and the trie
are oracle fields of the state; Keccak hashing of the address is the
identity injection, so the snapshot oracle is keyed by address. -/

/-- The live state-object slice relevant to the read path. -/
structure SObj where
  data : StateAccount
  deleted : Bool
deriving DecidableEq, Repr

/-- The slice of the manager the read path touches, together with its
collaborator oracles. -/
structure RState where
  stateObjects : Addr → Option SObj
  dbErr : Option Err
  /-- nil-able `s.snap`; `snap.Account` by hashed address -/
  snap : Option (Addr → Except Err (Option StateAccount))
  /-- `s.trie.GetAccount` -/
  trieAcc : Addr → Except Err (Option StateAccount)

/-- The snapshot-loaded account normalization inside
`getDeletedStateObject`: empty code hash and root are replaced by the
sentinels. -/
def normalizeSnapAccount (acc : StateAccount) : StateAccount :=
  { acc with
    codeHash := if acc.codeHash = 0 then EmptyCodeHash else acc.codeHash,
    root := if acc.root = 0 then EmptyRootHash else acc.root }

/-- `newObject` + `setStateObject`: insert a freshly loaded object into
the live set and return it. -/
def insertObj (s : RState) (addr : Addr) (data : StateAccount) : Option SObj × RState :=
  (some { data := data, deleted := false },
    { s with stateObjects := fun a =>
        if a = addr then some { data := data, deleted := false }
        else s.stateObjects a })

/-- The trie fallback of `getDeletedStateObject`: a read error is
memoized via `setError` and the account treated as absent. -/
def trieLoad (s : RState) (addr : Addr) : Option SObj × RState :=
  match s.trieAcc addr with
  | .error e =>
    (none, { s with dbErr := (CommitModel.setError s.dbErr (Err.fmtErrorf "getDeleteStateObject" e)) })
  | .ok none => (none, s)
  | .ok (some data) => insertObj s addr data

/-- `getDeletedStateObject` (plugin_hooks.go:1081-1159) with
`mvHashmap == nil`: live object, else snapshot (a definitive snapshot
miss returns nil without touching the trie), else trie. -/
def getDeletedStateObject (s : RState) (addr : Addr) : Option SObj × RState :=
  match s.stateObjects addr with
  | some obj => (some obj, s)
  | none =>
    match s.snap with
    | some f =>
      match f addr with
      | .ok none => (none, s)
      | .ok (some acc) => insertObj s addr (normalizeSnapAccount acc)
      | .error _ => trieLoad s addr
    | none => trieLoad s addr

/-- `getStateObject` (plugin_hooks.go:1069-1075): hide deleted objects. -/
def getStateObject (s : RState) (addr : Addr) : Option SObj × RState :=
  match getDeletedStateObject s addr with
  | (some obj, s') => if obj.deleted then (none, s') else (some obj, s')
  | (none, s') => (none, s')

/-- `GetBalance` with `mvHashmap == nil`: the object's balance, or 0. -/
def GetBalance (s : RState) (addr : Addr) : Int × RState :=
  match getStateObject s addr with
  | (some obj, s') => (obj.data.balance, s')
  | (none, s') => (0, s')

/-- `GetNonce` with `mvHashmap == nil`: the object's nonce, or 0. -/
def GetNonce (s : RState) (addr : Addr) : Nat × RState :=
  match getStateObject s addr with
  | (some obj, s') => (obj.data.nonce, s')
  | (none, s') => (0, s')

/-- `GetCodeHash` with `mvHashmap == nil`: the object's code hash, or the
zero hash. -/
def GetCodeHash (s : RState) (addr : Addr) : Hash × RState :=
  match getStateObject s addr with
  | (some obj, s') => (obj.data.codeHash, s')
  | (none, s') => (0, s')

/-- `Exist` : `s.getStateObject(addr) != nil`. -/
def Exist (s : RState) (addr : Addr) : Bool × RState :=
  match getStateObject s addr with
  | (some _, s') => (true, s')
  | (none, s') => (false, s')

end ReadModel

/-- C10: with parallel execution inactive and no state object existing
for an address (no live object, and the snapshot — or, when the snapshot
is absent or failing, the trie — reports the account as non-existent
without a read error), `GetBalance` returns 0, `GetNonce` returns 0,
`GetCodeHash` returns the zero hash and `Exist` returns false, and none
of these reads mutates the manager's state. -/
theorem c10_absent_account_defaults (s : ReadModel.RState) (addr : Addr)
    (hlive : s.stateObjects addr = none)
    (habsent :
      (∃ f, s.snap = some f ∧ f addr = .ok none) ∨
      ((s.snap = none ∨ ∃ f e, s.snap = some f ∧ f addr = .error e) ∧
        s.trieAcc addr = .ok none)) :
    ReadModel.GetBalance s addr = (0, s) ∧
    ReadModel.GetNonce s addr = (0, s) ∧
    ReadModel.GetCodeHash s addr = (0, s) ∧
    ReadModel.Exist s addr = (false, s) := by
  have hget : ReadModel.getDeletedStateObject s addr = (none, s) := by
    rcases habsent with ⟨f, hf, hfa⟩ | ⟨hsnap, htrie⟩
    · simp [ReadModel.getDeletedStateObject, hlive, hf, hfa]
    · rcases hsnap with hsnap | ⟨f, e, hf, hfa⟩
      · simp [ReadModel.getDeletedStateObject, ReadModel.trieLoad, hlive, hsnap, htrie]
      · simp [ReadModel.getDeletedStateObject, ReadModel.trieLoad, hlive, hf, hfa, htrie]
  have hobj : ReadModel.getStateObject s addr = (none, s) := by
    rw [ReadModel.getStateObject, hget]
  refine ⟨?_, ?_, ?_, ?_⟩ <;>
    simp [ReadModel.GetBalance, ReadModel.GetNonce, ReadModel.GetCodeHash,
      ReadModel.Exist, hobj]

/-- Concrete state for the C10 witness: empty live set, a snapshot that
reports every account as absent, a trie that is never consulted. -/
def c10WitState : ReadModel.RState :=
  { stateObjects := fun _ => none, dbErr := none,
    snap := some (fun _ => .ok none), trieAcc := fun _ => .ok none }

/-- Witness for C10 at a concrete absent account. -/
theorem c10_absent_account_defaults_witness :
    ReadModel.GetBalance c10WitState 3 = (0, c10WitState) ∧
    ReadModel.Exist c10WitState 3 = (false, c10WitState) := by
  have h := c10_absent_account_defaults c10WitState 3 rfl
    (Or.inl ⟨fun _ => .ok none, rfl, rfl⟩)
  exact ⟨h.1, h.2.2.2⟩

/-- Pointwise update of a function-embedded map. -/
def updMap {α : Type} (m : Addr → α) (a : Addr) (v : α) : Addr → α :=
  fun x => if x = a then v else m x

namespace FinaliseModel

/-!
## Transaction finalization (claim C1)

`Finalise` (plugin_hooks.go:1408-1457) and the destruct-marker
bookkeeping of `createObject` (plugin_hooks.go:1199-1241).  The iteration
over `s.journal.dirties` (a Go map, so each key occurs once) is embedded
as a fold over a duplicate-free list of dirty addresses.  The state
object's sub-fields come from the spec (`state_object.go` is not part of
this repository's sources): modelled from the spec, `empty()` is the
EIP-161 test "balance = nonce = code = 0", and a state object carries
balance, nonce, code hash, the self-destructed / deleted / created flags
and its original account record (nil when the account never existed).
The storage-slot prefetch performed by `obj.finalise(true)` for kept
objects is outside this slice. -/

/-- The state-object slice `Finalise` consults.  Modelled from the spec
for the fields themselves (see the section comment); the flags mirror
`stateObject.selfDestructed` / `deleted` / `created`, and `origin` the
account's original value (nil when it never existed). -/
structure FObj where
  balance : Int
  nonce : Nat
  codeHash : Hash
  selfDestructed : Bool
  deleted : Bool
  created : Bool
  origin : Option StateAccount
deriving DecidableEq, Repr

/-- Modelled from the spec: `stateObject.empty()`, the EIP-161 emptiness
test (balance = 0, nonce = 0, no code). -/
def FObj.isEmpty (o : FObj) : Bool :=
  o.balance == 0 && o.nonce == 0 && o.codeHash == EmptyCodeHash

/-- The manager slice `Finalise` and `createObject` touch.  The
`accounts`/`storages`/`accountsOrigin`/`storagesOrigin` block caches are
tracked as membership only; address hashing is the identity. -/
structure FState where
  journalDirties : List Addr
  stateObjects : Addr → Option FObj
  stateObjectsDestruct : Addr → Option (Option StateAccount)
  accounts : Addr → Bool
  storages : Addr → Bool
  accountsOrigin : Addr → Bool
  storagesOrigin : Addr → Bool
  stateObjectsPending : Addr → Bool
  stateObjectsDirty : Addr → Bool

/-- The body of `Finalise`'s dirty-address loop for a single address:
missing objects (the ripeMD touch special case) are skipped; an object
that is self-destructed — or empty, when `deleteEmptyObjects` — is
marked deleted, its first destruction is recorded in
`stateObjectsDestruct`, and its block caches are cleared; every processed
object has `created` reset and is marked pending and dirty. -/
def finaliseOne (deleteEmptyObjects : Bool) (s : FState) (addr : Addr) : FState :=
  match s.stateObjects addr with
  | none => s
  | some obj =>
    if obj.selfDestructed || (deleteEmptyObjects && obj.isEmpty) then
      { s with
        stateObjects := updMap s.stateObjects addr
          (some { obj with deleted := true, created := false }),
        stateObjectsDestruct :=
          match s.stateObjectsDestruct addr with
          | some _ => s.stateObjectsDestruct
          | none => updMap s.stateObjectsDestruct addr (some obj.origin),
        accounts := updMap s.accounts addr false,
        storages := updMap s.storages addr false,
        accountsOrigin := updMap s.accountsOrigin addr false,
        storagesOrigin := updMap s.storagesOrigin addr false,
        stateObjectsPending := updMap s.stateObjectsPending addr true,
        stateObjectsDirty := updMap s.stateObjectsDirty addr true }
    else
      { s with
        stateObjects := updMap s.stateObjects addr (some { obj with created := false }),
        stateObjectsPending := updMap s.stateObjectsPending addr true,
        stateObjectsDirty := updMap s.stateObjectsDirty addr true }

/-- `Finalise` (plugin_hooks.go:1408-1457): process every dirty address,
then clear the journal (transaction-scope reset). -/
def Finalise (deleteEmptyObjects : Bool) (s : FState) : FState :=
  let s' := s.journalDirties.foldl (finaliseOne deleteEmptyObjects) s
  { s' with journalDirties := [] }

/-- The destruct-marker bookkeeping of `createObject`
(plugin_hooks.go:1199-1241) when a previous object exists: only the first
destruction of an address writes the marker; an existing marker is kept
untouched even when the account is destructed again after a
resurrection. -/
def createObjectMarker (s : FState) (addr : Addr) (prevOrigin : Option StateAccount) :
    Addr → Option (Option StateAccount) :=
  match s.stateObjectsDestruct addr with
  | some _ => s.stateObjectsDestruct
  | none => updMap s.stateObjectsDestruct addr (some prevOrigin)

theorem finaliseOne_other (del : Bool) (s : FState) (b addr : Addr) (hne : b ≠ addr) :
    (finaliseOne del s b).stateObjects addr = s.stateObjects addr ∧
    (finaliseOne del s b).stateObjectsDestruct addr = s.stateObjectsDestruct addr := by
  constructor
  · rw [finaliseOne]
    split
    · rfl
    · split
      · simp [updMap, Ne.symm hne]
      · simp [updMap, Ne.symm hne]
  · rw [finaliseOne]
    split
    · rfl
    · split
      · split
        · rfl
        · simp [updMap, Ne.symm hne]
      · rfl

theorem foldl_finalise_other (del : Bool) (l : List Addr) :
    ∀ (s : FState) (addr : Addr), addr ∉ l →
      ((l.foldl (finaliseOne del) s).stateObjects addr = s.stateObjects addr ∧
       (l.foldl (finaliseOne del) s).stateObjectsDestruct addr =
         s.stateObjectsDestruct addr) := by
  induction l with
  | nil => intro s addr _; exact ⟨rfl, rfl⟩
  | cons b rest ih =>
    intro s addr hni
    have hne : b ≠ addr := fun h => hni (by simp [h])
    have hrest : addr ∉ rest := fun h => hni (by simp [h])
    have h1 := finaliseOne_other del s b addr hne
    have h2 := ih (finaliseOne del s b) addr hrest
    rw [List.foldl_cons]
    exact ⟨h2.1.trans h1.1, h2.2.trans h1.2⟩

end FinaliseModel

namespace FinaliseModel

theorem finaliseOne_self_del (del : Bool) (s : FState) (addr : Addr) (obj : FObj)
    (hobj : s.stateObjects addr = some obj)
    (hc : (obj.selfDestructed || (del && obj.isEmpty)) = true) :
    (finaliseOne del s addr).stateObjects addr =
      some { obj with deleted := true, created := false } ∧
    (s.stateObjectsDestruct addr = none →
      (finaliseOne del s addr).stateObjectsDestruct addr = some obj.origin) ∧
    (∀ p, s.stateObjectsDestruct addr = some p →
      (finaliseOne del s addr).stateObjectsDestruct addr = some p) := by
  simp only [finaliseOne, hobj]
  rw [if_pos hc]
  refine ⟨by simp [updMap], ?_, ?_⟩
  · intro hd
    simp only [hd]
    simp [updMap]
  · intro p hd
    simp only [hd]

theorem finaliseOne_self_keep (del : Bool) (s : FState) (addr : Addr) (obj : FObj)
    (hobj : s.stateObjects addr = some obj)
    (hc : ¬(obj.selfDestructed || (del && obj.isEmpty)) = true) :
    (finaliseOne del s addr).stateObjects addr = some { obj with created := false } ∧
    (finaliseOne del s addr).stateObjectsDestruct addr = s.stateObjectsDestruct addr := by
  simp only [finaliseOne, hobj]
  rw [if_neg hc]
  exact ⟨by simp [updMap], rfl⟩

end FinaliseModel

/-- C1: with `deleteEmptyObjects = true`, `Finalise` marks a (not yet
deleted) dirty account's state object deleted iff it is self-destructed
or empty (balance = 0, nonce = 0, no code); the first deletion of an
address records the account's original value in the destruct-marker set,
a pre-existing marker is never overwritten by `Finalise`, and the marker
also persists through `createObject`'s resurrection bookkeeping. -/
theorem c1_finalise_deletion (s : FinaliseModel.FState) (addr : Addr)
    (obj : FinaliseModel.FObj)
    (hnodup : s.journalDirties.Nodup)
    (hmem : addr ∈ s.journalDirties)
    (hobj : s.stateObjects addr = some obj)
    (hnotdel : obj.deleted = false) :
    (∃ obj', (FinaliseModel.Finalise true s).stateObjects addr = some obj' ∧
      (obj'.deleted = true ↔ (obj.selfDestructed = true ∨ obj.isEmpty = true))) ∧
    (s.stateObjectsDestruct addr = none →
      (obj.selfDestructed = true ∨ obj.isEmpty = true) →
      (FinaliseModel.Finalise true s).stateObjectsDestruct addr = some obj.origin) ∧
    (∀ p, s.stateObjectsDestruct addr = some p →
      (FinaliseModel.Finalise true s).stateObjectsDestruct addr = some p) ∧
    (∀ (t : FinaliseModel.FState) (a : Addr) (po p : Option StateAccount),
      t.stateObjectsDestruct a = some p →
      FinaliseModel.createObjectMarker t a po a = some p) := by
  obtain ⟨l1, l2, hsplit⟩ := List.append_of_mem hmem
  have hnodup' := hnodup
  rw [hsplit] at hnodup'
  obtain ⟨hn1, hn2, hdisj⟩ := List.nodup_append.mp hnodup'
  have haddr_l2 : addr ∉ l2 := (List.nodup_cons.mp hn2).1
  have haddr_l1 : addr ∉ l1 := fun h => hdisj h (List.mem_cons_self _ _)
  have hfold : (FinaliseModel.Finalise true s).stateObjects addr =
      (l2.foldl (FinaliseModel.finaliseOne true)
        (FinaliseModel.finaliseOne true (l1.foldl (FinaliseModel.finaliseOne true) s) addr)).stateObjects addr ∧
      (FinaliseModel.Finalise true s).stateObjectsDestruct addr =
      (l2.foldl (FinaliseModel.finaliseOne true)
        (FinaliseModel.finaliseOne true (l1.foldl (FinaliseModel.finaliseOne true) s) addr)).stateObjectsDestruct addr := by
    rw [FinaliseModel.Finalise, hsplit]
    rw [List.foldl_append, List.foldl_cons]
    exact ⟨rfl, rfl⟩
  set t1 := l1.foldl (FinaliseModel.finaliseOne true) s with ht1
  have hkeep1 := FinaliseModel.foldl_finalise_other true l1 s addr haddr_l1
  have hobj1 : t1.stateObjects addr = some obj := by rw [← ht1] at hkeep1; rw [hkeep1.1, hobj]
  have hdes1 : t1.stateObjectsDestruct addr = s.stateObjectsDestruct addr := by
    rw [← ht1] at hkeep1; exact hkeep1.2
  set u := FinaliseModel.finaliseOne true t1 addr with hu
  have hkeep2 := FinaliseModel.foldl_finalise_other true l2 u addr haddr_l2
  have hfin_obj : (FinaliseModel.Finalise true s).stateObjects addr = u.stateObjects addr := by
    rw [hfold.1, hkeep2.1]
  have hfin_des : (FinaliseModel.Finalise true s).stateObjectsDestruct addr =
      u.stateObjectsDestruct addr := by
    rw [hfold.2, hkeep2.2]
  by_cases hc : (obj.selfDestructed || (true && obj.isEmpty)) = true
  · have hself := FinaliseModel.finaliseOne_self_del true t1 addr obj hobj1 hc
    have hdisj' : obj.selfDestructed = true ∨ obj.isEmpty = true := by
      rcases Bool.or_eq_true_iff.mp hc with h | h
      · exact Or.inl h
      · exact Or.inr (Bool.and_eq_true_iff.mp h).2
    refine ⟨⟨{ obj with deleted := true, created := false }, ?_, ?_⟩, ?_, ?_, ?_⟩
    · rw [hfin_obj, hu, hself.1]
    · simpa using hdisj'
    · intro hd _
      rw [hfin_des, hu]
      exact hself.2.1 (by rw [hdes1, hd])
    · intro p hp
      rw [hfin_des, hu]
      exact hself.2.2 p (by rw [hdes1, hp])
    · intro t a po p hp
      simp [FinaliseModel.createObjectMarker, hp]
  · have hself := FinaliseModel.finaliseOne_self_keep true t1 addr obj hobj1 hc
    have hdisj' : ¬(obj.selfDestructed = true ∨ obj.isEmpty = true) := by
      rintro (h | h) <;> exact hc (by simp [h])
    refine ⟨⟨{ obj with created := false }, ?_, ?_⟩, ?_, ?_, ?_⟩
    · rw [hfin_obj, hu, hself.1]
    · simp only [hnotdel]
      constructor
      · intro h; exact absurd h (by simp)
      · intro h; exact absurd h hdisj'
    · intro _ h
      exact absurd h hdisj'
    · intro p hp
      rw [hfin_des, hu, hself.2, hdes1, hp]
    · intro t a po p hp
      simp [FinaliseModel.createObjectMarker, hp]

/-- The original account record of the C1 witness account. -/
def c1WitOrigin : StateAccount := { nonce := 1, balance := 100, root := 1, codeHash := 2 }

/-- Concrete manager state for the C1 witness: address 1 dirty, its
object self-destructed, no destruct marker yet. -/
def c1WitState : FinaliseModel.FState :=
  { journalDirties := [1],
    stateObjects := fun a =>
      if a = 1 then
        some { balance := 0, nonce := 1, codeHash := EmptyCodeHash,
               selfDestructed := true, deleted := false, created := false,
               origin := some c1WitOrigin }
      else none,
    stateObjectsDestruct := fun _ => none,
    accounts := fun _ => false, storages := fun _ => false,
    accountsOrigin := fun _ => false, storagesOrigin := fun _ => false,
    stateObjectsPending := fun _ => false, stateObjectsDirty := fun _ => false }

/-- Witness for C1 at a concrete self-destructed account. -/
theorem c1_finalise_deletion_witness :
    (FinaliseModel.Finalise true c1WitState).stateObjectsDestruct 1 =
      some (some c1WitOrigin) ∧
    (FinaliseModel.Finalise true c1WitState).stateObjects 1 =
      some { balance := 0, nonce := 1, codeHash := EmptyCodeHash,
             selfDestructed := true, deleted := true, created := false,
             origin := some c1WitOrigin } := by
  have h := c1_finalise_deletion c1WitState 1
    { balance := 0, nonce := 1, codeHash := EmptyCodeHash,
      selfDestructed := true, deleted := false, created := false,
      origin := some c1WitOrigin }
    (by simp [c1WitState]) (by simp [c1WitState]) rfl rfl
  refine ⟨h.2.1 rfl (Or.inl rfl), ?_⟩
  simp [FinaliseModel.Finalise, FinaliseModel.finaliseOne, c1WitState, updMap]

namespace JournalModel

/-!
## The journal, `Snapshot` and `RevertToSnapshot` (claims C2, C6)

`Snapshot` / `RevertToSnapshot` (plugin_hooks.go:1374-1398) and the
balance setters `AddBalance`/`SubBalance`/`SetBalance`
(plugin_hooks.go:864-903) composed with `GetOrNewStateObject` /
`createObject` (plugin_hooks.go:1166-1241), with parallel execution
inactive.  The journal entry types and their undo actions, and the state
object's balance mutators, are modelled from the spec (§4.3, §4.4:
`journal.go` and `state_object.go` are not part of this repository's
sources): every balance mutator appends a balance-change undo entry
recording the previous balance; object creation appends a
created-object entry whose undo removes the object; resurrecting a
deleted object appends a reset entry whose undo restores the previous
object and, when the destruct marker was first set by that resurrection,
removes it; `journal.revert` replays undo entries in reverse down to the
target length and truncates.  `sort.Search` over the ordered revision
list is embedded as the least index holding an id ≥ the target.
The underlying committed store (snapshot/trie lazy load) is the oracle
field `committed`; a load caches the committed object unjournaled,
exactly as `getDeletedStateObject` inserts into the live set. -/

/-- The state-object slice the balance ops touch: balance, the deleted
flag, and whether a committed original existed (`origin != nil`). -/
structure JObj where
  balance : Int
  deleted : Bool
  existedBefore : Bool
deriving DecidableEq, Repr

/-- Modelled from the spec: the journal's typed undo entries relevant to
balance brackets. -/
inductive JEntry where
  | balanceChange (addr : Addr) (prev : Int)
  | createObjectChange (addr : Addr)
  | resetObjectChange (addr : Addr) (prev : JObj) (prevdestruct : Bool)
deriving DecidableEq, Repr

/-- The address a journal entry touches. -/
def JEntry.touched : JEntry → Addr
  | .balanceChange a _ => a
  | .createObjectChange a => a
  | .resetObjectChange a _ _ => a

/-- A `revision` (plugin_hooks.go:170-173). -/
structure Revision where
  id : Nat
  journalIndex : Nat
deriving DecidableEq, Repr

/-- The manager slice of the journal machinery.  `committed` is the
oracle for the lazily loaded underlying store (the committed balance of
an account, `none` when the account does not exist). -/
structure JState where
  stateObjects : Addr → Option JObj
  stateObjectsDestruct : Addr → Option Bool
  committed : Addr → Option Int
  journal : List JEntry
  validRevisions : List Revision
  nextRevisionId : Nat

/-- The lazy load of `getDeletedStateObject`: a cached object wins;
otherwise a committed account is loaded into the live set (unjournaled),
and a miss everywhere is a legitimately absent account. -/
def loadObj (s : JState) (addr : Addr) : Option JObj × JState :=
  match s.stateObjects addr with
  | some o => (some o, s)
  | none =>
    match s.committed addr with
    | some b =>
      (some { balance := b, deleted := false, existedBefore := true },
        { s with stateObjects :=
            (updMap s.stateObjects addr (some { balance := b, deleted := false, existedBefore := true })) })
    | none => (none, s)

/-- `createObject` on this slice: the previous (possibly deleted) object
is consulted; a fresh object replaces it; the first destruction records
the marker; the journal records the undo entry. -/
def createObject (s : JState) (addr : Addr) : JState :=
  match loadObj s addr with
  | (none, s1) =>
    { s1 with
      stateObjects := updMap s1.stateObjects addr
        (some { balance := 0, deleted := false, existedBefore := false }),
      journal := s1.journal ++ [.createObjectChange addr] }
  | (some p, s1) =>
    { s1 with
      stateObjects := updMap s1.stateObjects addr
        (some { balance := 0, deleted := false, existedBefore := false }),
      stateObjectsDestruct :=
        if (s1.stateObjectsDestruct addr).isSome then s1.stateObjectsDestruct
        else updMap s1.stateObjectsDestruct addr (some p.existedBefore),
      journal := s1.journal ++
        [.resetObjectChange addr p (s1.stateObjectsDestruct addr).isSome] }

/-- `GetOrNewStateObject`: resolve the object, creating one when it is
absent or deleted. -/
def getOrNew (s : JState) (addr : Addr) : JState :=
  match loadObj s addr with
  | (some o, s1) => if o.deleted then createObject s1 addr else s1
  | (none, s1) => createObject s1 addr

/-- Modelled from the spec: a state object's balance mutator — journal
the previous balance, then apply `f` to it. -/
def mutateBalance (s : JState) (addr : Addr) (f : Int → Int) : JState :=
  match s.stateObjects addr with
  | some o =>
    { s with
      stateObjects := updMap s.stateObjects addr (some { o with balance := f o.balance }),
      journal := s.journal ++ [.balanceChange addr o.balance] }
  | none => s

/-- The balance operations a `Snapshot`/`RevertToSnapshot` bracket may
contain. -/
inductive BalOp where
  | set (addr : Addr) (v : Int)
  | add (addr : Addr) (v : Int)
  | sub (addr : Addr) (v : Int)
deriving DecidableEq, Repr

/-- The address a balance operation targets. -/
def BalOp.addr : BalOp → Addr
  | .set a _ => a
  | .add a _ => a
  | .sub a _ => a

/-- `SetBalance` / `AddBalance` / `SubBalance`
(plugin_hooks.go:864-903) with `mvHashmap == nil`: resolve-or-create,
then mutate the balance. -/
def applyOp (s : JState) : BalOp → JState
  | .set a v => mutateBalance (getOrNew s a) a (fun _ => v)
  | .add a v => mutateBalance (getOrNew s a) a (fun b => b + v)
  | .sub a v => mutateBalance (getOrNew s a) a (fun b => b - v)

/-- Modelled from the spec: the undo action of a single journal entry. -/
def undoEntry (s : JState) : JEntry → JState
  | .balanceChange addr prev =>
    match s.stateObjects addr with
    | some o =>
      { s with stateObjects := updMap s.stateObjects addr (some { o with balance := prev }) }
    | none => s
  | .createObjectChange addr =>
    { s with stateObjects := updMap s.stateObjects addr none }
  | .resetObjectChange addr p prevdestruct =>
    { s with
      stateObjects := updMap s.stateObjects addr (some p),
      stateObjectsDestruct :=
        if prevdestruct then s.stateObjectsDestruct
        else updMap s.stateObjectsDestruct addr none }

/-- Modelled from the spec: `journal.revert(s, n)` — undo the entries
beyond position `n` in reverse order, then truncate the journal. -/
def revertTo (s : JState) (n : Nat) : JState :=
  { ((s.journal.drop n).reverse.foldl undoEntry s) with journal := s.journal.take n }

/-- `Snapshot` (plugin_hooks.go:1374-1381): hand out the next revision
id, bump the counter, and record the current journal length. -/
def SnapshotOp (s : JState) : Nat × JState :=
  (s.nextRevisionId,
    { s with
      nextRevisionId := s.nextRevisionId + 1,
      validRevisions := s.validRevisions ++
        [{ id := s.nextRevisionId, journalIndex := s.journal.length }] })

/-- `sort.Search(len(l), func(i) { return l[i].id >= revid })`: the least
index whose revision id is ≥ `revid` (on an id-sorted list this is what
the binary search computes). -/
def searchRevision (l : List Revision) (revid : Nat) : Nat :=
  match l with
  | [] => 0
  | r :: rest => if revid ≤ r.id then 0 else searchRevision rest revid + 1

/-- `RevertToSnapshot` (plugin_hooks.go:1383-1398): locate the revision
by id (a miss is the Go panic, embedded as `none`), replay the journal
down to its recorded length, and discard it and every later revision. -/
def RevertToSnapshot (s : JState) (revid : Nat) : Option JState :=
  match s.validRevisions.get? (searchRevision s.validRevisions revid) with
  | none => none
  | some r =>
    if r.id = revid then
      some { (revertTo s r.journalIndex) with
        validRevisions := s.validRevisions.take (searchRevision s.validRevisions revid) }
    else none

/-- What `GetBalance` observes (without the cache-fill side effect): the
live object's balance when present and not deleted, else the committed
balance, else 0. -/
def balanceView (s : JState) (a : Addr) : Int :=
  match s.stateObjects a with
  | some o => if o.deleted then 0 else o.balance
  | none =>
    match s.committed a with
    | some b => b
    | none => 0

end JournalModel

namespace JournalModel

theorem updMap_self {α : Type} (m : Addr → α) (a : Addr) (v : α) : updMap m a v a = v := by
  simp [updMap]

theorem updMap_other {α : Type} (m : Addr → α) (a : Addr) (v : α) (x : Addr)
    (hx : x ≠ a) : updMap m a v x = m x := by
  simp [updMap, hx]

theorem updMap_collapse {α : Type} (m : Addr → α) (a : Addr) (v w : α) :
    updMap (updMap m a v) a w = updMap m a w := by
  funext x
  by_cases hx : x = a <;> simp [updMap, hx]

theorem updMap_cancel {α : Type} (m : Addr → α) (a : Addr) (v : α) (hv : m a = v) :
    updMap m a v = m := by
  funext x
  by_cases hx : x = a <;> simp [updMap, hx, hv]

/-- Undo a journal-entry block in reverse order. -/
def undoAll (Δ : List JEntry) (s : JState) : JState := Δ.reverse.foldl undoEntry s

/-- The single-operation anatomy: a balance operation appends a block of
undo entries touching only its own address, keeps every other live
object, leaves the revision machinery alone, and undoing its block
restores the pre-operation state exactly — except that a previously
uncached committed account stays cached with its committed balance
(the unjournaled lazy-load cache fill). -/
theorem mutGet_undo (s : JState) (a : Addr) (f : Int → Int) :
    ∃ Δ, (mutateBalance (getOrNew s a) a f).journal = s.journal ++ Δ ∧
      (∀ e ∈ Δ, e.touched = a) ∧
      ((mutateBalance (getOrNew s a) a f).stateObjects a).isSome = true ∧
      (∀ x, x ≠ a → (mutateBalance (getOrNew s a) a f).stateObjects x = s.stateObjects x) ∧
      (mutateBalance (getOrNew s a) a f).committed = s.committed ∧
      (mutateBalance (getOrNew s a) a f).validRevisions = s.validRevisions ∧
      (mutateBalance (getOrNew s a) a f).nextRevisionId = s.nextRevisionId ∧
      (undoAll Δ (mutateBalance (getOrNew s a) a f) = { s with journal := s.journal ++ Δ } ∨
       (s.stateObjects a = none ∧ ∃ b, s.committed a = some b ∧
        undoAll Δ (mutateBalance (getOrNew s a) a f) =
          { s with journal := s.journal ++ Δ,
                   stateObjects := (updMap s.stateObjects a (some ⟨b, false, true⟩)) })) := by
  cases hobj : s.stateObjects a with
  | some o =>
    have hload : loadObj s a = (some o, s) := by
      rw [loadObj, hobj]
    cases hdel : o.deleted with
    | false =>
      have hget : getOrNew s a = s := by
        simp only [getOrNew, hload, hdel]
        simp
      rw [hget]
      have hmut : mutateBalance s a f =
          { s with
            stateObjects := (updMap s.stateObjects a (some { o with balance := f o.balance })),
            journal := s.journal ++ [.balanceChange a o.balance] } := by
        simp only [mutateBalance, hobj]
      refine ⟨[.balanceChange a o.balance], by rw [hmut], ?_, ?_, ?_, ?_, ?_, ?_, ?_⟩
      · intro e he
        simp only [List.mem_singleton] at he
        rw [he]; rfl
      · rw [hmut]; simp [updMap_self]
      · intro x hx; rw [hmut]; exact updMap_other _ _ _ _ hx
      · rw [hmut]
      · rw [hmut]
      · rw [hmut]
      · left
        have hundo : undoAll [.balanceChange a o.balance] (mutateBalance s a f) =
            undoEntry (mutateBalance s a f) (.balanceChange a o.balance) := rfl
        rw [hundo, hmut, undoEntry]
        simp only [updMap_self]
        rw [updMap_collapse]
        have : updMap s.stateObjects a (some { o with balance := o.balance }) =
            s.stateObjects := updMap_cancel _ _ _ (by rw [hobj])
        rw [this]
    | true =>
      have hget : getOrNew s a = createObject s a := by
        simp only [getOrNew, hload, hdel]
        simp
      have hpd : ∀ pd, pd = (s.stateObjectsDestruct a).isSome →
          createObject s a =
          { s with
            stateObjects := (updMap s.stateObjects a (some ⟨0, false, false⟩)),
            stateObjectsDestruct :=
              (if pd then s.stateObjectsDestruct
               else updMap s.stateObjectsDestruct a (some o.existedBefore)),
            journal := s.journal ++ [.resetObjectChange a o pd] } := by
        intro pd hpdd
        rw [createObject, hload, hpdd]
      have hcreate := hpd (s.stateObjectsDestruct a).isSome rfl
      set pd := (s.stateObjectsDestruct a).isSome with hpdd
      have hmut : mutateBalance (createObject s a) a f =
          { s with
            stateObjects := (updMap s.stateObjects a (some ⟨f 0, false, false⟩)),
            stateObjectsDestruct :=
              (if pd then s.stateObjectsDestruct
               else updMap s.stateObjectsDestruct a (some o.existedBefore)),
            journal := s.journal ++ [.resetObjectChange a o pd, .balanceChange a 0] } := by
        rw [hcreate, mutateBalance]
        simp only [updMap_self]
        rw [updMap_collapse]
        simp [List.append_assoc]
      rw [hget]
      refine ⟨[.resetObjectChange a o pd, .balanceChange a 0], by rw [hmut], ?_, ?_, ?_, ?_, ?_, ?_, ?_⟩
      · intro e he
        rcases List.mem_cons.1 he with he | he
        · rw [he]; rfl
        · simp only [List.mem_singleton] at he
          rw [he]; rfl
      · rw [hmut]; simp [updMap_self]
      · intro x hx
        rw [hmut]
        exact updMap_other _ _ _ _ hx
      · rw [hmut]
      · rw [hmut]
      · rw [hmut]
      · left
        have hundo : undoAll [.resetObjectChange a o pd, .balanceChange a 0]
            (mutateBalance (createObject s a) a f) =
            undoEntry (undoEntry (mutateBalance (createObject s a) a f)
              (.balanceChange a 0)) (.resetObjectChange a o pd) := rfl
        rw [hundo, hmut]
        rw [undoEntry]
        simp only [updMap_self]
        rw [updMap_collapse]
        rw [undoEntry]
        rw [updMap_collapse]
        have hobjs : updMap s.stateObjects a (some o) = s.stateObjects :=
          updMap_cancel _ _ _ (by rw [hobj])
        rw [hobjs]
        cases hpdv : pd with
        | true => simp
        | false =>
          have hdnone : s.stateObjectsDestruct a = none := by
            rw [hpdd] at hpdv
            exact Option.not_isSome_iff_eq_none.mp (by rw [hpdv]; simp)
          simp [updMap_collapse, updMap_cancel _ _ _ hdnone]
  | none =>
    cases hcom : s.committed a with
    | some b =>
      have hload : loadObj s a =
          (some ⟨b, false, true⟩,
            { s with stateObjects := (updMap s.stateObjects a (some ⟨b, false, true⟩)) }) := by
        rw [loadObj, hobj, hcom]
      have hget : getOrNew s a =
          { s with stateObjects := (updMap s.stateObjects a (some ⟨b, false, true⟩)) } := by
        simp only [getOrNew, hload]
        simp
      rw [hget]
      have hmut : mutateBalance
          { s with stateObjects := (updMap s.stateObjects a (some ⟨b, false, true⟩)) } a f =
          { s with
            stateObjects := (updMap s.stateObjects a (some ⟨f b, false, true⟩)),
            journal := s.journal ++ [.balanceChange a b] } := by
        rw [mutateBalance]
        simp only [updMap_self]
        rw [updMap_collapse]
      refine ⟨[.balanceChange a b], by rw [hmut], ?_, ?_, ?_, ?_, ?_, ?_, ?_⟩
      · intro e he
        simp only [List.mem_singleton] at he
        rw [he]; rfl
      · rw [hmut]; simp [updMap_self]
      · intro x hx; rw [hmut]; exact updMap_other _ _ _ _ hx
      · rw [hmut]
      · rw [hmut]
      · rw [hmut]
      · right
        refine ⟨rfl, b, rfl, ?_⟩
        have hundo : undoAll [.balanceChange a b]
            (mutateBalance { s with stateObjects := (updMap s.stateObjects a (some ⟨b, false, true⟩)) } a f) =
            undoEntry (mutateBalance { s with stateObjects := (updMap s.stateObjects a (some ⟨b, false, true⟩)) } a f)
              (.balanceChange a b) := rfl
        rw [hundo, hmut, undoEntry]
        simp only [updMap_self]
        rw [updMap_collapse]
    | none =>
      have hload : loadObj s a = (none, s) := by
        rw [loadObj, hobj, hcom]
      have hget : getOrNew s a = createObject s a := by
        simp only [getOrNew, hload]
      have hcreate : createObject s a =
          { s with
            stateObjects := (updMap s.stateObjects a (some ⟨0, false, false⟩)),
            journal := s.journal ++ [.createObjectChange a] } := by
        rw [createObject, hload]
      have hmut : mutateBalance (createObject s a) a f =
          { s with
            stateObjects := (updMap s.stateObjects a (some ⟨f 0, false, false⟩)),
            journal := s.journal ++ [.createObjectChange a, .balanceChange a 0] } := by
        rw [hcreate, mutateBalance]
        simp only [updMap_self]
        rw [updMap_collapse]
        simp [List.append_assoc]
      rw [hget]
      refine ⟨[.createObjectChange a, .balanceChange a 0], by rw [hmut], ?_, ?_, ?_, ?_, ?_, ?_, ?_⟩
      · intro e he
        rcases List.mem_cons.1 he with he | he
        · rw [he]; rfl
        · simp only [List.mem_singleton] at he
          rw [he]; rfl
      · rw [hmut]; simp [updMap_self]
      · intro x hx; rw [hmut]; exact updMap_other _ _ _ _ hx
      · rw [hmut]
      · rw [hmut]
      · rw [hmut]
      · left
        have hundo : undoAll [.createObjectChange a, .balanceChange a 0]
            (mutateBalance (createObject s a) a f) =
            undoEntry (undoEntry (mutateBalance (createObject s a) a f)
              (.balanceChange a 0)) (.createObjectChange a) := rfl
        rw [hundo, hmut]
        rw [undoEntry]
        simp only [updMap_self]
        rw [updMap_collapse]
        rw [undoEntry]
        rw [updMap_collapse]
        rw [updMap_cancel _ _ _ hobj]

theorem applyOp_undo (s : JState) (op : BalOp) :
    ∃ Δ, (applyOp s op).journal = s.journal ++ Δ ∧
      (∀ e ∈ Δ, e.touched = op.addr) ∧
      ((applyOp s op).stateObjects op.addr).isSome = true ∧
      (∀ x, x ≠ op.addr → (applyOp s op).stateObjects x = s.stateObjects x) ∧
      (applyOp s op).committed = s.committed ∧
      (applyOp s op).validRevisions = s.validRevisions ∧
      (applyOp s op).nextRevisionId = s.nextRevisionId ∧
      (undoAll Δ (applyOp s op) = { s with journal := s.journal ++ Δ } ∨
       (s.stateObjects op.addr = none ∧ ∃ b, s.committed op.addr = some b ∧
        undoAll Δ (applyOp s op) =
          { s with journal := s.journal ++ Δ,
                   stateObjects := (updMap s.stateObjects op.addr (some ⟨b, false, true⟩)) })) := by
  cases op with
  | set a v => exact mutGet_undo s a (fun _ => v)
  | add a v => exact mutGet_undo s a (fun b => b + v)
  | sub a v => exact mutGet_undo s a (fun b => b - v)

end JournalModel

namespace JournalModel

/-- The relation between a pre-block state and the state reached after a
block of operations has been fully undone: identical up to extra live
cache entries mirroring committed accounts (the unjournaled lazy loads). -/
def CacheExt (t s : JState) : Prop :=
  s.stateObjectsDestruct = t.stateObjectsDestruct ∧
  s.committed = t.committed ∧
  s.validRevisions = t.validRevisions ∧
  s.nextRevisionId = t.nextRevisionId ∧
  ∀ a, s.stateObjects a = t.stateObjects a ∨
    (t.stateObjects a = none ∧ ∃ b, t.committed a = some b ∧
      s.stateObjects a = some ⟨b, false, true⟩)

theorem undoEntry_fields (s : JState) (e : JEntry) :
    (undoEntry s e).committed = s.committed ∧
    (undoEntry s e).validRevisions = s.validRevisions ∧
    (undoEntry s e).nextRevisionId = s.nextRevisionId ∧
    (undoEntry s e).journal = s.journal := by
  cases e with
  | balanceChange addr prev =>
    rw [undoEntry]
    cases s.stateObjects addr <;> exact ⟨rfl, rfl, rfl, rfl⟩
  | createObjectChange addr => exact ⟨rfl, rfl, rfl, rfl⟩
  | resetObjectChange addr p pd => exact ⟨rfl, rfl, rfl, rfl⟩

theorem foldl_undo_fields (l : List JEntry) :
    ∀ s : JState, (l.foldl undoEntry s).committed = s.committed ∧
      (l.foldl undoEntry s).validRevisions = s.validRevisions ∧
      (l.foldl undoEntry s).nextRevisionId = s.nextRevisionId ∧
      (l.foldl undoEntry s).journal = s.journal := by
  induction l with
  | nil => intro s; exact ⟨rfl, rfl, rfl, rfl⟩
  | cons e rest ih =>
    intro s
    rw [List.foldl_cons]
    have h1 := undoEntry_fields s e
    have h2 := ih (undoEntry s e)
    exact ⟨h2.1.trans h1.1, h2.2.1.trans h1.2.1, h2.2.2.1.trans h1.2.2.1,
      h2.2.2.2.trans h1.2.2.2⟩

theorem undoAll_fields (Δ : List JEntry) (s : JState) :
    (undoAll Δ s).committed = s.committed ∧
    (undoAll Δ s).validRevisions = s.validRevisions ∧
    (undoAll Δ s).nextRevisionId = s.nextRevisionId ∧
    (undoAll Δ s).journal = s.journal :=
  foldl_undo_fields Δ.reverse s

theorem undoAll_append (δ Δ₂ : List JEntry) (s : JState) :
    undoAll (δ ++ Δ₂) s = undoAll δ (undoAll Δ₂ s) := by
  rw [undoAll, undoAll, undoAll, List.reverse_append, List.foldl_append]

theorem undoEntry_step (u w : JState) (e : JEntry)
    (ha : w.stateObjects e.touched = u.stateObjects e.touched)
    (hd : w.stateObjectsDestruct = u.stateObjectsDestruct) :
    (undoEntry w e).stateObjects e.touched = (undoEntry u e).stateObjects e.touched ∧
    (undoEntry w e).stateObjectsDestruct = (undoEntry u e).stateObjectsDestruct ∧
    (∀ x, x ≠ e.touched → (undoEntry w e).stateObjects x = w.stateObjects x) ∧
    (∀ x, x ≠ e.touched → (undoEntry u e).stateObjects x = u.stateObjects x) := by
  cases e with
  | balanceChange addr prev =>
    simp only [JEntry.touched] at ha ⊢
    rw [undoEntry, undoEntry, ha]
    cases hob : u.stateObjects addr with
    | some o =>
      refine ⟨?_, hd, ?_, ?_⟩
      · simp only [updMap_self]
      · intro x hx; exact updMap_other _ _ _ _ hx
      · intro x hx; exact updMap_other _ _ _ _ hx
    | none => exact ⟨ha, hd, fun x _ => rfl, fun x _ => rfl⟩
  | createObjectChange addr =>
    simp only [JEntry.touched] at ha ⊢
    rw [undoEntry, undoEntry]
    refine ⟨by simp [updMap_self], hd, ?_, ?_⟩
    · intro x hx; exact updMap_other _ _ _ _ hx
    · intro x hx; exact updMap_other _ _ _ _ hx
  | resetObjectChange addr p pd =>
    simp only [JEntry.touched] at ha ⊢
    rw [undoEntry, undoEntry]
    refine ⟨by simp [updMap_self], ?_, ?_, ?_⟩
    · rw [hd]
    · intro x hx; exact updMap_other _ _ _ _ hx
    · intro x hx; exact updMap_other _ _ _ _ hx

theorem foldl_undo_local (l : List JEntry) (a : Addr) (hl : ∀ e ∈ l, e.touched = a) :
    ∀ u w : JState, w.stateObjects a = u.stateObjects a →
      w.stateObjectsDestruct = u.stateObjectsDestruct →
      (l.foldl undoEntry w).stateObjects a = (l.foldl undoEntry u).stateObjects a ∧
      (l.foldl undoEntry w).stateObjectsDestruct =
        (l.foldl undoEntry u).stateObjectsDestruct ∧
      (∀ x, x ≠ a → (l.foldl undoEntry w).stateObjects x = w.stateObjects x) ∧
      (∀ x, x ≠ a → (l.foldl undoEntry u).stateObjects x = u.stateObjects x) := by
  induction l with
  | nil => intro u w ha hd; exact ⟨ha, hd, fun x _ => rfl, fun x _ => rfl⟩
  | cons e rest ih =>
    intro u w ha hd
    have he : e.touched = a := hl e (by simp)
    have hrest : ∀ e' ∈ rest, e'.touched = a := fun e' h => hl e' (by simp [h])
    have hstep := undoEntry_step u w e (by rw [he]; exact ha) hd
    rw [he] at hstep
    have hrec := ih hrest (undoEntry u e) (undoEntry w e) hstep.1 hstep.2.1
    rw [List.foldl_cons, List.foldl_cons]
    refine ⟨hrec.1, hrec.2.1, ?_, ?_⟩
    · intro x hx
      exact (hrec.2.2.1 x hx).trans (hstep.2.2.1 x hx)
    · intro x hx
      exact (hrec.2.2.2 x hx).trans (hstep.2.2.2 x hx)

theorem foldl_applyOp_undo (ops : List BalOp) :
    ∀ t : JState, ∃ Δ,
      (ops.foldl applyOp t).journal = t.journal ++ Δ ∧
      (ops.foldl applyOp t).committed = t.committed ∧
      (ops.foldl applyOp t).validRevisions = t.validRevisions ∧
      (ops.foldl applyOp t).nextRevisionId = t.nextRevisionId ∧
      CacheExt t (undoAll Δ (ops.foldl applyOp t)) := by
  induction ops with
  | nil =>
    intro t
    refine ⟨[], by simp, rfl, rfl, rfl, rfl, rfl, rfl, rfl, fun a => Or.inl rfl⟩
  | cons op rest ih =>
    intro t
    obtain ⟨δ, hj1, htouch, hcached, hother, hcom1, hvr1, hnr1, hdisj⟩ := applyOp_undo t op
    obtain ⟨Δ₂, hj2, hcom2, hvr2, hnr2, hCE⟩ := ih (applyOp t op)
    refine ⟨δ ++ Δ₂, ?_, ?_, ?_, ?_, ?_⟩
    · rw [List.foldl_cons, hj2, hj1, List.append_assoc]
    · rw [List.foldl_cons, hcom2, hcom1]
    · rw [List.foldl_cons, hvr2, hvr1]
    · rw [List.foldl_cons, hnr2, hnr1]
    · rw [List.foldl_cons, undoAll_append]
      set F := rest.foldl applyOp (applyOp t op) with hF
      set w := undoAll Δ₂ F with hw
      obtain ⟨hCEd, hCEc, hCEv, hCEn, hCEo⟩ := hCE
      have hwa : w.stateObjects op.addr = (applyOp t op).stateObjects op.addr := by
        rcases hCEo op.addr with h | ⟨hnone, _⟩
        · exact h
        · rw [hnone] at hcached; exact absurd hcached (by simp)
      have hloc := foldl_undo_local δ.reverse op.addr
        (fun e he => htouch e (List.mem_reverse.mp he)) (applyOp t op) w hwa hCEd
      have hundo_fields_w := undoAll_fields δ w
      have hundo_fields_u := undoAll_fields δ (applyOp t op)
      have hl1 : (undoAll δ w).stateObjects op.addr =
          (undoAll δ (applyOp t op)).stateObjects op.addr := hloc.1
      have hl2 : (undoAll δ w).stateObjectsDestruct =
          (undoAll δ (applyOp t op)).stateObjectsDestruct := hloc.2.1
      have hl3 : ∀ x, x ≠ op.addr → (undoAll δ w).stateObjects x = w.stateObjects x :=
        hloc.2.2.1
      -- the undo of δ on the exact state (applyOp t op), from the single-op anatomy
      rcases hdisj with hexact | ⟨hnone, b, hcomb, hmirror⟩
      · refine ⟨?_, ?_, ?_, ?_, ?_⟩
        · -- destruct restored
          rw [hl2, hexact]
        · rw [hundo_fields_w.1, hCEc, hcom1]
        · rw [hundo_fields_w.2.1, hCEv, hvr1]
        · rw [hundo_fields_w.2.2.1, hCEn, hnr1]
        · intro a
          by_cases hax : a = op.addr
          · subst hax
            left
            rw [hl1, hexact]
          · have h1 : (undoAll δ w).stateObjects a = w.stateObjects a :=
              hloc.2.2.1 a hax
            rcases hCEo a with h2 | ⟨hnone2, b2, hb2, hmir2⟩
            · left
              rw [h1, h2, hother a hax]
            · right
              rw [hother a hax] at hnone2
              rw [hcom1] at hb2
              exact ⟨hnone2, b2, hb2, by rw [h1, hmir2]⟩
      · refine ⟨?_, ?_, ?_, ?_, ?_⟩
        · have h1 : (undoAll δ w).stateObjectsDestruct =
              (undoAll δ (applyOp t op)).stateObjectsDestruct := hloc.2.1
          rw [h1, hmirror]
        · rw [hundo_fields_w.1, hCEc, hcom1]
        · rw [hundo_fields_w.2.1, hCEv, hvr1]
        · rw [hundo_fields_w.2.2.1, hCEn, hnr1]
        · intro a
          by_cases hax : a = op.addr
          · subst hax
            right
            refine ⟨hnone, b, hcomb, ?_⟩
            rw [hl1, hmirror]
            exact updMap_self _ _ _
          · have h1 : (undoAll δ w).stateObjects a = w.stateObjects a :=
              hloc.2.2.1 a hax
            rcases hCEo a with h2 | ⟨hnone2, b2, hb2, hmir2⟩
            · left
              rw [h1, h2, hother a hax]
            · right
              rw [hother a hax] at hnone2
              rw [hcom1] at hb2
              exact ⟨hnone2, b2, hb2, by rw [h1, hmir2]⟩

end JournalModel

namespace JournalModel

theorem searchRevision_append (l : List Revision) (revid n : Nat)
    (hlt : ∀ r ∈ l, r.id < revid) :
    searchRevision (l ++ [⟨revid, n⟩]) revid = l.length := by
  induction l with
  | nil => simp [searchRevision]
  | cons r rest ih =>
    have hr : r.id < revid := hlt r (by simp)
    have hrest : ∀ x ∈ rest, x.id < revid := fun x hx => hlt x (by simp [hx])
    rw [List.cons_append, searchRevision, if_neg (by omega), ih hrest]
    simp

theorem searchRevision_found (l : List Revision) (revid : Nat)
    (hs : List.Pairwise (fun r1 r2 => r1.id < r2.id) l)
    (hmem : revid ∈ l.map Revision.id) :
    ∃ r, l.get? (searchRevision l revid) = some r ∧ r.id = revid := by
  induction l with
  | nil => exact absurd hmem (by simp)
  | cons r rest ih =>
    rw [searchRevision]
    by_cases hle : revid ≤ r.id
    · rw [if_pos hle]
      refine ⟨r, rfl, ?_⟩
      rcases List.mem_map.mp hmem with ⟨r', hr', hid⟩
      rcases List.mem_cons.1 hr' with h | h
      · rw [h] at hid; omega
      · have := (List.pairwise_cons.mp hs).1 r' h
        omega
    · rw [if_neg hle]
      have hmem' : revid ∈ rest.map Revision.id := by
        rcases List.mem_map.mp hmem with ⟨r', hr', hid⟩
        rcases List.mem_cons.1 hr' with h | h
        · rw [h] at hid; omega
        · exact List.mem_map.mpr ⟨r', h, hid⟩
      exact ih (List.pairwise_cons.mp hs).2 hmem'

/-- The balance views of `CacheExt`-related states agree everywhere. -/
theorem CacheExt_balanceView (t u : JState) (h : CacheExt t u) :
    ∀ a, balanceView u a = balanceView t a := by
  intro a
  obtain ⟨_, hcom, _, _, hobj⟩ := h
  rcases hobj a with ho | ⟨hnone, b, hb, hmir⟩
  · rw [balanceView, balanceView, ho, hcom]
  · rw [balanceView, balanceView, hnone, hmir, hb]
    simp

end JournalModel

/-- C2: for every state and every sequence of `SetBalance`/`AddBalance`/
`SubBalance` calls performed after `id := Snapshot()`,
`RevertToSnapshot(id)` succeeds and restores every account's observable
balance to its value at the moment of the `Snapshot()` call. -/
theorem c2_balance_bracket_revert (s0 : JournalModel.JState)
    (ops : List JournalModel.BalOp)
    (hbound : ∀ r ∈ s0.validRevisions, r.id < s0.nextRevisionId) :
    ∃ s3, JournalModel.RevertToSnapshot
        (ops.foldl JournalModel.applyOp (JournalModel.SnapshotOp s0).2)
        (JournalModel.SnapshotOp s0).1 = some s3 ∧
      ∀ a, JournalModel.balanceView s3 a = JournalModel.balanceView s0 a := by
  set s1 := (JournalModel.SnapshotOp s0).2 with hs1
  set id0 := (JournalModel.SnapshotOp s0).1 with hid0
  have hid0' : id0 = s0.nextRevisionId := rfl
  have hvr1 : s1.validRevisions =
      s0.validRevisions ++ [{ id := id0, journalIndex := s0.journal.length }] := rfl
  have hj1 : s1.journal = s0.journal := rfl
  obtain ⟨Δ, hjF, hcomF, hvrF, hnrF, hCE⟩ :=
    JournalModel.foldl_applyOp_undo ops s1
  set F := ops.foldl JournalModel.applyOp s1 with hF
  have hsearch : JournalModel.searchRevision F.validRevisions id0 =
      s0.validRevisions.length := by
    rw [hvrF, hvr1]
    exact JournalModel.searchRevision_append s0.validRevisions id0 s0.journal.length
      (by intro r hr; rw [hid0']; exact hbound r hr)
  have hget : F.validRevisions.get? (JournalModel.searchRevision F.validRevisions id0) =
      some { id := id0, journalIndex := s0.journal.length } := by
    rw [hsearch, hvrF, hvr1]
    exact List.get?_concat_length _ _

  have hrevert : JournalModel.RevertToSnapshot F id0 =
      some { (JournalModel.revertTo F s0.journal.length) with
        validRevisions := F.validRevisions.take
          (JournalModel.searchRevision F.validRevisions id0) } := by
    rw [JournalModel.RevertToSnapshot, hget]
    simp
  refine ⟨_, hrevert, ?_⟩
  intro a
  have hdrop : F.journal.drop s0.journal.length = Δ := by
    rw [hjF, hj1]
    exact List.drop_left _ _
  have hview : JournalModel.balanceView
      { (JournalModel.revertTo F s0.journal.length) with
        validRevisions := F.validRevisions.take
          (JournalModel.searchRevision F.validRevisions id0) } a =
      JournalModel.balanceView (JournalModel.undoAll Δ F) a := by
    rw [JournalModel.balanceView, JournalModel.balanceView]
    have h1 : (JournalModel.revertTo F s0.journal.length).stateObjects =
        (JournalModel.undoAll Δ F).stateObjects := by
      rw [JournalModel.revertTo, hdrop]
      rfl
    have h2 : (JournalModel.revertTo F s0.journal.length).committed =
        (JournalModel.undoAll Δ F).committed := by
      rw [JournalModel.revertTo, hdrop]
      rfl
    rw [h1, h2]
  rw [hview, JournalModel.CacheExt_balanceView s1 (JournalModel.undoAll Δ F) hCE a]
  rfl

/-- Concrete pre-bracket state for the C2 witness: account 1 committed
with balance 5, nothing cached. -/
def c2WitState : JournalModel.JState :=
  { stateObjects := fun _ => none,
    stateObjectsDestruct := fun _ => none,
    committed := fun a => if a = 1 then some 5 else none,
    journal := [], validRevisions := [], nextRevisionId := 0 }

/-- The bracket operations of the C2 witness. -/
def c2WitOps : List JournalModel.BalOp := [.add 1 7, .set 2 3, .sub 1 2]

/-- Witness for C2: after the bracket is reverted, account 1 reads its
committed balance 5 again and account 2 reads 0. -/
theorem c2_balance_bracket_revert_witness :
    Option.map (fun s3 => JournalModel.balanceView s3 1)
      (JournalModel.RevertToSnapshot
        (c2WitOps.foldl JournalModel.applyOp (JournalModel.SnapshotOp c2WitState).2)
        (JournalModel.SnapshotOp c2WitState).1) = some 5 ∧
    Option.map (fun s3 => JournalModel.balanceView s3 2)
      (JournalModel.RevertToSnapshot
        (c2WitOps.foldl JournalModel.applyOp (JournalModel.SnapshotOp c2WitState).2)
        (JournalModel.SnapshotOp c2WitState).1) = some 0 := by
  obtain ⟨s3, h1, h2⟩ := c2_balance_bracket_revert c2WitState c2WitOps
    (by intro r hr; exact absurd hr (by simp [c2WitState]))
  rw [h1]
  constructor
  · have hm : Option.map (fun s3 => JournalModel.balanceView s3 1) (some s3) =
        some (JournalModel.balanceView s3 1) := rfl
    rw [hm, h2 1]
    rfl
  · have hm : Option.map (fun s3 => JournalModel.balanceView s3 2) (some s3) =
        some (JournalModel.balanceView s3 2) := rfl
    rw [hm, h2 2]
    rfl

/-- C6: `Snapshot()` hands out strictly increasing identifiers from a
counter that no operation (balance mutation or revert) ever resets, so
ids are never reused; `RevertToSnapshot(id)` panics exactly when `id` is
not among the outstanding valid revisions; on success it replays the
journal back to the located revision's recorded length and discards that
revision together with every later one. -/
theorem c6_snapshot_ids_and_revert (s : JournalModel.JState) (revid : Nat)
    (hs : List.Pairwise (fun r1 r2 => r1.id < r2.id) s.validRevisions) :
    ((JournalModel.SnapshotOp s).1 = s.nextRevisionId ∧
     (JournalModel.SnapshotOp s).2.nextRevisionId = s.nextRevisionId + 1 ∧
     (JournalModel.SnapshotOp (JournalModel.SnapshotOp s).2).1 = s.nextRevisionId + 1 ∧
     (∀ op, (JournalModel.applyOp s op).nextRevisionId = s.nextRevisionId) ∧
     (∀ s', JournalModel.RevertToSnapshot s revid = some s' →
        s'.nextRevisionId = s.nextRevisionId)) ∧
    (JournalModel.RevertToSnapshot s revid = none ↔
      revid ∉ s.validRevisions.map JournalModel.Revision.id) ∧
    (∀ s', JournalModel.RevertToSnapshot s revid = some s' →
      ∃ idx r, s.validRevisions.get? idx = some r ∧ r.id = revid ∧
        s'.validRevisions = s.validRevisions.take idx ∧
        s'.journal = s.journal.take r.journalIndex ∧
        s' = { JournalModel.revertTo s r.journalIndex with
               validRevisions := s.validRevisions.take idx }) := by
  have hshape : ∀ s', JournalModel.RevertToSnapshot s revid = some s' →
      ∃ idx r, s.validRevisions.get? idx = some r ∧ r.id = revid ∧
        idx = JournalModel.searchRevision s.validRevisions revid ∧
        s' = { JournalModel.revertTo s r.journalIndex with
               validRevisions := s.validRevisions.take idx } := by
    intro s' h
    cases hget : s.validRevisions.get?
        (JournalModel.searchRevision s.validRevisions revid) with
    | none =>
      rw [JournalModel.RevertToSnapshot, hget] at h
      exact absurd h (by simp)
    | some r =>
      by_cases hid : r.id = revid
      · have heq : JournalModel.RevertToSnapshot s revid =
            some { JournalModel.revertTo s r.journalIndex with
                   validRevisions := s.validRevisions.take
                     (JournalModel.searchRevision s.validRevisions revid) } := by
          rw [JournalModel.RevertToSnapshot, hget]
          simp [hid]
        rw [heq] at h
        simp only [Option.some.injEq] at h
        exact ⟨_, r, hget, hid, rfl, h.symm⟩
      · have heq : JournalModel.RevertToSnapshot s revid = none := by
          rw [JournalModel.RevertToSnapshot, hget]
          simp [hid]
        rw [heq] at h
        exact absurd h (by simp)
  refine ⟨⟨rfl, rfl, rfl, ?_, ?_⟩, ⟨?_, ?_⟩, ?_⟩
  · intro op
    obtain ⟨_, _, _, _, _, _, _, hnr, _⟩ := JournalModel.applyOp_undo s op
    exact hnr
  · intro s' h
    obtain ⟨idx, r, hget, hid, hidx, hs'⟩ := hshape s' h
    rw [hs']
    exact (JournalModel.foldl_undo_fields _ _).2.2.1
  · intro h hmem
    obtain ⟨r, hget, hid⟩ := JournalModel.searchRevision_found _ _ hs hmem
    have heq : JournalModel.RevertToSnapshot s revid =
        some { JournalModel.revertTo s r.journalIndex with
               validRevisions := s.validRevisions.take
                 (JournalModel.searchRevision s.validRevisions revid) } := by
      rw [JournalModel.RevertToSnapshot, hget]
      simp [hid]
    rw [heq] at h
    exact absurd h (by simp)
  · intro hmem
    cases hget : s.validRevisions.get?
        (JournalModel.searchRevision s.validRevisions revid) with
    | none => rw [JournalModel.RevertToSnapshot, hget]
    | some r =>
      by_cases hid : r.id = revid
      · exfalso
        exact hmem (List.mem_map.mpr ⟨r, List.get?_mem hget, hid⟩)
      · rw [JournalModel.RevertToSnapshot, hget]
        simp [hid]
  · intro s' h
    obtain ⟨idx, r, hget, hid, hidx, hs'⟩ := hshape s' h
    refine ⟨idx, r, hget, hid, ?_, ?_, hs'⟩
    · rw [hs']
    · rw [hs']
      rfl

/-- Concrete state for the C6 witness: two outstanding revisions with
ids 0 and 1; id 5 was never handed out. -/
def c6WitState : JournalModel.JState :=
  { stateObjects := fun _ => none,
    stateObjectsDestruct := fun _ => none,
    committed := fun _ => none,
    journal := [.balanceChange 1 0, .balanceChange 1 1, .balanceChange 1 2],
    validRevisions := [{ id := 0, journalIndex := 0 }, { id := 1, journalIndex := 2 }],
    nextRevisionId := 2 }

/-- Witness for C6: reverting to the unknown id 5 panics. -/
theorem c6_snapshot_ids_and_revert_witness :
    JournalModel.RevertToSnapshot c6WitState 5 = none ∧
    (JournalModel.SnapshotOp c6WitState).1 = 2 := by
  have h := c6_snapshot_ids_and_revert c6WitState 5
    (by simp [c6WitState])
  refine ⟨h.2.1.mpr ?_, h.1.1⟩
  simp [c6WitState]
